import Mathlib

/-!
# Identity Risk Intelligence engine — verification development

Shallow embedding of the identity-graph / risk / compliance / remediation
engines of `backend/app/identity/` (files `graph_engine.py`, `risk_engine.py`,
`compliance_engine.py`, `remediation_engine.py`) together with the relevant
parts of `backend/app/models.py`.

Modelling conventions:
* Python `float` values are modelled as exact rationals (`ℚ`); every constant
  appearing in the sources (0.8, 0.3, …) is carried exactly.  Constants that
  gate control flow during graph construction are written `Rat.divInt n d`
  (e.g. `Rat.divInt 4 5` for `0.8`), a form that normalizes under kernel
  reduction so that concrete graphs can be evaluated by `decide`.
* Python `str` is Lean `String`; `s.lower()` is modelled character-wise
  (`Char.toLower`, which agrees with Python on the ASCII strings the engines
  compare), and `a in b` (substring test) is modelled by an explicit scan.
* Python `dict`s are modelled as insertion-ordered association lists, which
  matches the (Python ≥ 3.7) iteration order that the builders rely on.
* Python `set`s whose iteration order is irrelevant to the observable values
  (only cardinality / membership is consumed) are modelled as
  first-occurrence-deduplicated lists.
* `datetime` values only enter through `days_inactive = (now - lastLogin).days`;
  we model `lastLogin` as an optional rational day count and pass `now` (in
  days) as an explicit parameter, so `days_inactive` is `⌊now - lastLogin⌋`.
* The bounded BFS/DFS loops are written with an explicit structural fuel
  argument so that every definition is executable by kernel reduction; the
  initial fuel is a tight upper bound on the number of loop iterations
  (for BFS: one pop per queue entry, and every enqueue beyond the start node
  consumes a fresh adjacency target; for DFS: the recursion depth is bounded
  by the path-length guard), so the fuel-exhaustion branch is unreachable
  from the top-level entry points.
-/

namespace Portal

/-! ## String helpers (Python `str.lower`, `in`, `startswith`, `split`) -/

/-- Characterwise lower-casing, `str.lower()` on the ASCII data the engines
compare. -/
def pyLower (s : String) : String := ⟨s.data.map Char.toLower⟩

/-- `pattern` is a prefix of `s` (on character lists). -/
def charsStart : List Char → List Char → Bool
  | [], _ => true
  | _ :: _, [] => false
  | a :: as, b :: bs => a == b && charsStart as bs

/-- `needle` occurs as a contiguous substring of `haystack` (character lists). -/
def charsHave (needle : List Char) : List Char → Bool
  | [] => needle.isEmpty
  | c :: rest => charsStart needle (c :: rest) || charsHave needle rest

/-- Python `needle in haystack` (substring containment). -/
def strHas (haystack needle : String) : Bool := charsHave needle.data haystack.data

/-- Python `s.startswith(p)`. -/
def strStarts (s p : String) : Bool := charsStart p.data s.data

/-- Python `s.split("@")[0]`: the part of `s` before the first `'@'`
(the whole of `s` when no `'@'` occurs). -/
def emailLocal (s : String) : String := ⟨s.data.takeWhile (fun c => c ≠ '@')⟩

/-- `"admin" in r.lower()` — the admin-substring test used throughout
`graph_engine.py` and `risk_engine.py`. -/
def adminRole (r : String) : Bool := strHas (pyLower r) "admin"

/-! ## Rounding

Python 3 `round()` rounds half to even; `int()` on a non-negative float
truncates, i.e. takes the floor. -/

/-- Python 3 `round(q)`: round half to even. -/
def pyRound (q : ℚ) : Int :=
  if 2 * q = 2 * (⌊q⌋ : ℚ) + 1 then
    (if ⌊q⌋ % 2 = 0 then ⌊q⌋ else ⌊q⌋ + 1)
  else round q

/-! ## Data model (`app/models.py`) -/

/-- `IdentitySource` enum of `models.py`. -/
inductive IdentitySource
  | aws | azure | gcp | okta | github | gitlab | hr | demo
deriving DecidableEq

/-- `IdentitySource.value` — the string payload of the `str`-enum. -/
def IdentitySource.value : IdentitySource → String
  | .aws => "aws" | .azure => "azure" | .gcp => "gcp" | .okta => "okta"
  | .github => "github" | .gitlab => "gitlab" | .hr => "hr" | .demo => "demo"

/-- `PrivilegeTier` enum of `models.py`. -/
inductive PrivilegeTier
  | low | medium | high | critical
deriving DecidableEq

/-- `PrivilegeTier.value`. -/
def PrivilegeTier.value : PrivilegeTier → String
  | .low => "low" | .medium => "medium" | .high => "high" | .critical => "critical"

/-- `UnifiedIdentity` of `models.py`.  `lastLogin` is an optional timestamp in
(fractional) days, see the module header.  `riskScore` and `exposureLevel` are
floats, modelled as rationals. -/
structure UnifiedIdentity where
  id : String
  email : String
  source : IdentitySource
  provider : Option String := none
  roles : List String := []
  mfaEnabled : Bool := false
  lastLogin : Option ℚ := none
  isActive : Bool := true
  riskScore : ℚ := 0
  linkedAccounts : List String := []
  groupMembership : List String := []
  privilegeTier : PrivilegeTier := .low
  exposureLevel : ℚ := 0
  attackPathCount : Nat := 0
  blastRadius : Int := 0
  permissions : List String := []
  cloudAccounts : List String := []
deriving DecidableEq

/-- `i.provider if i.source == IdentitySource.DEMO else i.source.value` —
the display source used by the graph and engines (`None` is possible for demo
records without a `provider`). -/
def displaySource (i : UnifiedIdentity) : Option String :=
  if i.source = .demo then i.provider else some i.source.value

/-! ## Role sensitivity model (`graph_engine.py`, `PERMISSION_WEIGHTS` /
`_get_role_weight`) -/

/-- `PERMISSION_WEIGHTS`, in dict insertion order. -/
def PERMISSION_WEIGHTS : List (String × ℚ) :=
  [("AdministratorAccess", 1), ("SuperAdmin", 1), ("Owner", Rat.divInt 19 20),
   ("GlobalAdmin", Rat.divInt 19 20), ("root", 1), ("admin", Rat.divInt 9 10),
   ("Contributor", Rat.divInt 3 5), ("Editor", Rat.divInt 3 5),
   ("ReadWrite", Rat.divInt 1 2), ("Developer", Rat.divInt 2 5),
   ("Reader", Rat.divInt 1 5), ("Viewer", Rat.divInt 1 10)]

/-- `_get_role_weight(role)`: first table key whose lower-casing occurs in
`role.lower()` wins, then the fallback heuristics. -/
def getRoleWeight (role : String) : ℚ :=
  match PERMISSION_WEIGHTS.find? (fun kw => strHas (pyLower role) (pyLower kw.1)) with
  | some kw => kw.2
  | none =>
    if strHas (pyLower role) "admin" then Rat.divInt 9 10
    else if strHas (pyLower role) "write" || strHas (pyLower role) "manage" then
      Rat.divInt 1 2
    else if strHas (pyLower role) "read" || strHas (pyLower role) "view" then
      Rat.divInt 3 20
    else Rat.divInt 3 10

/-! ## Association lists (Python dicts, insertion ordered) -/

/-- One adjacency entry `(target, relationship, weight)`. -/
structure AdjEntry where
  target : String
  rel : String
  weight : ℚ
deriving DecidableEq

/-- Lookup in an association list (first binding wins — Python dict keys are
unique, and every builder below keeps them unique). -/
def alFind {β : Type} (m : List (String × β)) (k : String) : Option β :=
  match m.find? (fun p => p.1 = k) with
  | some p => some p.2
  | none => none

/-- `defaultdict(list)` read: the bucket at `k`, `[]` when absent. -/
def alGet {β : Type} (m : List (String × List β)) (k : String) : List β :=
  match alFind m k with
  | some l => l
  | none => []

/-- `m[k] = v` on a dict: replace the binding if the key exists, else append. -/
def alSet {β : Type} (m : List (String × β)) (k : String) (v : β) :
    List (String × β) :=
  match m with
  | [] => [(k, v)]
  | (k', v') :: rest => if k' = k then (k, v) :: rest else (k', v') :: alSet rest k v

/-- `m[k].append(x)` on a `defaultdict(list)`: append to the bucket, creating
it at the end of the dict when absent. -/
def alPush {β : Type} (m : List (String × List β)) (k : String) (x : β) :
    List (String × List β) :=
  match m with
  | [] => [(k, [x])]
  | (k', l) :: rest => if k' = k then (k, l ++ [x]) :: rest else (k', l) :: alPush rest k x

/-! ## Identity relationship graph (`graph_engine.py`, class `IdentityGraph`) -/

/-- The state of an `IdentityGraph` object.  `__init__` assigns exactly
`self.nodes`, `self.adjacency` and `self._email_to_ids`; the attribute
`identities` is *never* assigned anywhere in the repository, which we model
with the optional `identitiesAttr` component (`none` = attribute absent, so
reading it raises `AttributeError`). -/
structure IdentityGraph where
  nodes : List (String × UnifiedIdentity)
  adjacency : List (String × List AdjEntry)
  emailToIds : List (String × List String)
  identitiesAttr : Option (List UnifiedIdentity)

/-- `_add_edge(source, target, relationship, weight)`: append the entry to both
endpoint buckets. -/
def addEdge (adj : List (String × List AdjEntry)) (source target rel : String)
    (w : ℚ) : List (String × List AdjEntry) :=
  alPush (alPush adj source ⟨target, rel, w⟩) target ⟨source, rel, w⟩

/-- The node dict built by the first loop of `_build_graph`. -/
def buildNodes (identities : List UnifiedIdentity) : List (String × UnifiedIdentity) :=
  identities.foldl (fun m i => alSet m i.id i) []

/-- The `_email_to_ids` index (keyed by lower-cased email). -/
def buildEmailToIds (identities : List UnifiedIdentity) : List (String × List String) :=
  identities.foldl (fun m i => alPush m (pyLower i.email) i.id) []

/-- All ordered pairs `(l[i], l[j])` with `i < j`, in the double-loop order of
`_build_graph`. -/
def orderedPairs : List String → List (String × String)
  | [] => []
  | x :: xs => xs.map (fun y => (x, y)) ++ orderedPairs xs

/-- Cross-provider edges: for every email bucket with ≥ 2 ids, connect every
pair with a `cross_provider` edge of weight 0.8. -/
def crossProviderStage (emailToIds : List (String × List String))
    (adj : List (String × List AdjEntry)) : List (String × List AdjEntry) :=
  emailToIds.foldl
    (fun adj bucket =>
      if bucket.2.length > 1 then
        (orderedPairs bucket.2).foldl
          (fun adj pr => addEdge adj pr.1 pr.2 "cross_provider" (Rat.divInt 4 5)) adj
      else adj)
    adj

/-- Linked-account edges: weight 0.9, only when the target id is a known node. -/
def linkedStage (nodes : List (String × UnifiedIdentity))
    (identities : List UnifiedIdentity) (adj : List (String × List AdjEntry)) :
    List (String × List AdjEntry) :=
  identities.foldl
    (fun adj i =>
      i.linkedAccounts.foldl
        (fun adj linked =>
          if (alFind nodes linked).isSome then
            addEdge adj i.id linked "linked_account" (Rat.divInt 9 10)
          else adj)
        adj)
    adj

/-- Group-membership edges to virtual `vgroup:<name>` nodes, weight 0.5. -/
def groupStage (identities : List UnifiedIdentity)
    (adj : List (String × List AdjEntry)) : List (String × List AdjEntry) :=
  identities.foldl
    (fun adj i =>
      i.groupMembership.foldl
        (fun adj grp => addEdge adj i.id ("vgroup:" ++ grp) "member_of" (Rat.divInt 1 2))
        adj)
    adj

/-- Role edges to virtual `vrole:<name>` nodes for roles of weight ≥ 0.7,
edge weight `roleWeight * 0.5`. -/
def roleStage (identities : List UnifiedIdentity)
    (adj : List (String × List AdjEntry)) : List (String × List AdjEntry) :=
  identities.foldl
    (fun adj i =>
      i.roles.foldl
        (fun adj role =>
          let weight := getRoleWeight role
          if weight ≥ Rat.divInt 7 10 then
            addEdge adj i.id ("vrole:" ++ role) "has_role" (weight * Rat.divInt 1 2)
          else adj)
        adj)
    adj

/-- `IdentityGraph(identities)`: `__init__` plus `_build_graph`. -/
def mkIdentityGraph (identities : List UnifiedIdentity) : IdentityGraph :=
  let nodes := buildNodes identities
  let emailToIds := buildEmailToIds identities
  let adj := roleStage identities (groupStage identities
    (linkedStage nodes identities (crossProviderStage emailToIds [])))
  { nodes := nodes, adjacency := adj, emailToIds := emailToIds,
    identitiesAttr := none }

/-! ### BFS — `get_connected_identities` -/

/-- One row of the `get_connected_identities` result list. -/
structure ConnEntry where
  id : String
  email : String
  src : Option String
  depth : Nat
  via : String
  riskScore : ℚ
deriving DecidableEq

/-- `neighbor.startswith("vgroup:") or neighbor.startswith("vrole:")`. -/
def isVirtual (s : String) : Bool := strStarts s "vgroup:" || strStarts s "vrole:"

/-- The body of the neighbour loop of the BFS: given the pending queue and the
visited set, process one adjacency entry (mark fresh targets visited and
enqueue them — virtual nodes at the current depth keeping the current `via`,
identity nodes at `depth + 1` with the edge relationship). -/
def bfsScanStep (depth : Nat) (via : String)
    (qv : List (String × Nat × String) × List String) (e : AdjEntry) :
    List (String × Nat × String) × List String :=
  if e.target ∈ qv.2 then qv
  else if isVirtual e.target then
    (qv.1 ++ [(e.target, depth, via)], qv.2 ++ [e.target])
  else
    (qv.1 ++ [(e.target, depth + 1, e.rel)], qv.2 ++ [e.target])

/-- The `while queue:` loop of `get_connected_identities`, with structural
fuel (one unit per pop; see the header note for why the initial fuel cannot
run out). -/
def bfsLoop (g : IdentityGraph) (maxDepth : Nat) :
    Nat → List (String × Nat × String) → List String → List ConnEntry →
    List ConnEntry
  | 0, _, _, result => result
  | _ + 1, [], _, result => result
  | fuel + 1, (current, depth, via) :: rest, visited, result =>
    let result' :=
      if depth > 0 then
        match alFind g.nodes current with
        | some node =>
          result ++ [⟨current, node.email, displaySource node, depth, via,
                      node.riskScore⟩]
        | none => result
      else result
    if depth < maxDepth then
      let qv := (alGet g.adjacency current).foldl (bfsScanStep depth via)
        (rest, visited)
      bfsLoop g maxDepth fuel qv.1 qv.2 result'
    else
      bfsLoop g maxDepth fuel rest visited result'

/-- Every adjacency target of the graph, with multiplicity — an upper bound on
the set of nodes the BFS can ever enqueue beyond the start node. -/
def allTargets (adj : List (String × List AdjEntry)) : List String :=
  (adj.map (fun p => p.2.map AdjEntry.target)).flatten

/-- Fuel that dominates the BFS pop count: `1` initial element plus at most
one enqueue per adjacency target. -/
def bfsFuel (g : IdentityGraph) : Nat := (allTargets g.adjacency).length + 1

/-- `get_connected_identities(identity_id, max_depth)`. -/
def getConnectedIdentities (g : IdentityGraph) (identityId : String)
    (maxDepth : Nat) : List ConnEntry :=
  if (alFind g.nodes identityId).isSome then
    bfsLoop g maxDepth (bfsFuel g) [(identityId, 0, "origin")] [identityId] []
  else []

/-! ### DFS — `find_admin_takeover_paths` / `_dfs_paths` -/

/-- One hop record `{id, email, relationship, weight}` of an attack path. -/
structure Hop where
  id : String
  email : String
  relationship : String
  weight : ℚ
deriving DecidableEq

/-- `_dfs_paths(current, targets, path, visited, all_paths, max_depth)` as a
pure function returning the paths it appends.  The mutable `visited` set of
the Python code holds, at any call, exactly the start node and the nodes of
the current path (added on entry, discarded on exit), so the pure version
passes the ancestor set and extends it with `current` before the neighbour
loop.  Fuel is structural; the top-level call passes `maxDepth + 1`, and the
`path.length > maxDepth` guard fires before fuel can reach zero. -/
def dfsPaths (g : IdentityGraph) (targets : List String) (maxDepth : Nat) :
    Nat → String → List Hop → List String → List (List Hop)
  | fuel, current, path, visited =>
    if path.length > maxDepth then []
    else if current ∈ targets ∧ path.length > 0 then [path]
    else
      match fuel with
      | 0 => []
      | fuel + 1 =>
        ((alGet g.adjacency current).map (fun e =>
          if e.target ∉ current :: visited then
            match alFind g.nodes e.target with
            | some node =>
              dfsPaths g targets maxDepth fuel e.target
                (path ++ [⟨e.target, node.email, e.rel, e.weight⟩])
                (current :: visited)
            | none => []
          else [])).flatten

/-- The admin node-id set of `find_admin_takeover_paths` (as a list; only
membership is consumed). -/
def adminIds (g : IdentityGraph) : List String :=
  (g.nodes.filter (fun p => p.2.roles.any adminRole)).map (fun p => p.1)

/-- `find_admin_takeover_paths(start_id)`. -/
def findAdminTakeoverPaths (g : IdentityGraph) (startId : String) :
    List (List Hop) :=
  match alFind g.nodes startId with
  | none => []
  | some _ =>
    if startId ∈ adminIds g then []
    else dfsPaths g (adminIds g) 4 5 startId [] []

/-! ### Blast radius — `calculate_blast_radius` -/

/-- First-occurrence set insertion: used for the Python `set`s whose observable
content is cardinality and membership. -/
def insertIfAbsent {α : Type} [DecidableEq α] (l : List α) (x : α) : List α :=
  if x ∈ l then l else l ++ [x]

/-- `"admin" in r.lower() for r in self.nodes[x].identity.roles` — the lookup
is written total here; `calculate_blast_radius` only applies it to ids of rows
of `get_connected_identities`, which are always node keys. -/
def adminAtNode (g : IdentityGraph) (x : String) : Bool :=
  match alFind g.nodes x with
  | some node => node.roles.any adminRole
  | none => false

/-- The result dict of `calculate_blast_radius`.  For an unknown identity the
Python dict has only the first three keys (`extras = none`); otherwise
`extras` carries `(affectedSources, adminReachable, crossCloudSpread)`. -/
structure BlastRadiusResult where
  identityId : String
  blastRadius : Int
  affectedIdentities : Nat
  extras : Option (List (Option String) × Nat × Nat)
deriving DecidableEq

/-- The accumulator loop of `calculate_blast_radius`:
`(total_weight, affected_sources, admin_reachable)`. -/
def blastFold (g : IdentityGraph) (conn : List ConnEntry) :
    ℚ × List (Option String) × Nat :=
  conn.foldl
    (fun acc c =>
      (acc.1 + 1 / ((c.depth : ℚ) + 1),
       insertIfAbsent acc.2.1 c.src,
       if adminAtNode g c.id then acc.2.2 + 1 else acc.2.2))
    (0, [], 0)

/-- `calculate_blast_radius(identity_id)`.  `int(raw_blast * 10)` truncates;
`raw_blast` is a product of non-negative terms, so truncation is `⌊·⌋`. -/
def calculateBlastRadius (g : IdentityGraph) (identityId : String) :
    BlastRadiusResult :=
  let conn := getConnectedIdentities g identityId 3
  match alFind g.nodes identityId with
  | none => ⟨identityId, 0, 0, none⟩
  | some _ =>
    let acc := blastFold g conn
    let adminMultiplier : ℚ := 1 + (acc.2.2 : ℚ) * (3/10)
    let crossCloudMultiplier : ℚ := 1 + (acc.2.1.length : ℚ) * (3/20)
    let rawBlast := acc.1 * adminMultiplier * crossCloudMultiplier
    ⟨identityId, min ⌊rawBlast * 10⌋ 100, conn.length,
     some (acc.2.1, acc.2.2, acc.2.1.length)⟩

/-! ### Lateral movement — `detect_lateral_movement_paths` -/

/-- One entry of the `detect_lateral_movement_paths` result. -/
structure LateralPath where
  fromId : String
  fromSource : Option String
  fromEmail : String
  toId : String
  toSource : Option String
  toEmail : String
  hops : Nat
  via : String
  risk : ℚ
  critical : Bool
deriving DecidableEq

/-- Sort key order `(not critical, hops)`, ascending. -/
def lateralKeyLe (a b : LateralPath) : Bool :=
  (if a.critical then 0 else 1, a.hops) ≤ (if b.critical then 0 else 1, b.hops)

/-- Stable insertion (after equal keys) — Python `list.sort` is stable. -/
def stableInsert {α : Type} (le : α → α → Bool) (x : α) : List α → List α
  | [] => [x]
  | y :: ys => if le x y ∧ ¬ le y x then x :: y :: ys else y :: stableInsert le x ys

/-- Stable insertion sort. -/
def stableSort {α : Type} (le : α → α → Bool) (l : List α) : List α :=
  l.foldl (fun acc x => stableInsert le x acc) []

/-- `detect_lateral_movement_paths(identity_id)`. -/
def detectLateralMovementPaths (g : IdentityGraph) (identityId : String) :
    List LateralPath :=
  let conn := getConnectedIdentities g identityId 4
  match alFind g.nodes identityId with
  | none => []
  | some node =>
    let startSource := displaySource node
    let paths := (conn.filter
      (fun c => c.src ≠ startSource ∨ c.riskScore > 50)).map
      (fun c => (⟨identityId, startSource, node.email, c.id, c.src, c.email,
                  c.depth, c.via, c.riskScore, c.riskScore ≥ 80⟩ : LateralPath))
    (stableSort lateralKeyLe paths).take 15

/-! ### `get_risk_distribution` -/

/-- The bucket counts `{Critical, High, Medium, Low}`. -/
structure RiskDistribution where
  critical : Nat
  high : Nat
  medium : Nat
  low : Nat
deriving DecidableEq

/-- The bucketing loop in the body of `get_risk_distribution`, over a list of
identities. -/
def riskBuckets (identities : List UnifiedIdentity) : RiskDistribution :=
  identities.foldl
    (fun d i =>
      if i.riskScore ≥ 80 then { d with critical := d.critical + 1 }
      else if i.riskScore ≥ 50 then { d with high := d.high + 1 }
      else if i.riskScore ≥ 20 then { d with medium := d.medium + 1 }
      else { d with low := d.low + 1 })
    ⟨0, 0, 0, 0⟩

/-- `get_risk_distribution()`: the body iterates `self.identities`, an
attribute that `__init__` never assigns, so the read raises `AttributeError`
whenever the attribute is absent (which it is for every graph the constructor
produces). -/
def getRiskDistribution (g : IdentityGraph) : Except String RiskDistribution :=
  match g.identitiesAttr with
  | none => .error "AttributeError: 'IdentityGraph' object has no attribute 'identities'"
  | some identities => .ok (riskBuckets identities)

/-! ## Graph-enhanced risk engine (`graph_engine.py`, class `EnhancedRiskEngine`) -/

/-- The `_email_map` of `EnhancedRiskEngine.__init__` (no empty-email skip). -/
def buildEmailMapAll (identities : List UnifiedIdentity) :
    List (String × List UnifiedIdentity) :=
  identities.foldl (fun m i => alPush m (pyLower i.email) i) []

/-- `blast["adminReachable"]` — total accessor; the engine only reads it on
results of the `some`-node branch, where `extras` is present. -/
def BlastRadiusResult.adminReachableVal (r : BlastRadiusResult) : Nat :=
  match r.extras with
  | some e => e.2.1
  | none => 0

/-- `calculate_privilege_tier(identity)`.  `max(..., default=0)` over the role
weights equals a fold from 0 because every role weight is positive. -/
def calculatePrivilegeTier (g : IdentityGraph) (identity : UnifiedIdentity) :
    PrivilegeTier :=
  let maxWeight : ℚ := (identity.roles.map getRoleWeight).foldl max 0
  let blast := calculateBlastRadius g identity.id
  if blast.adminReachableVal > 3 ∨ maxWeight ≥ 9/10 then .critical
  else if blast.adminReachableVal > 0 ∨ maxWeight ≥ 3/5 then .high
  else if maxWeight ≥ 3/10 then .medium
  else .low

/-- `calculate_exposure_level(identity)` (0–100). -/
def calculateExposureLevel (g : IdentityGraph)
    (emailMap : List (String × List UnifiedIdentity))
    (identity : UnifiedIdentity) : ℚ :=
  let e1 : ℚ := if identity.mfaEnabled then 0 else 35
  let e2 : ℚ := e1 + (if identity.roles.any adminRole then 25 else 0)
  let related := (alFind emailMap (pyLower identity.email)).getD []
  let e3 : ℚ := e2 + min ((related.length : ℚ) * 10) 30
  let blast := calculateBlastRadius g identity.id
  let e4 : ℚ := e3 + ((blast.blastRadius : ℚ) / 100) * 10
  min e4 100

/-- The cross-cloud account set written to `identity.cloudAccounts` (a Python
set comprehension; only membership/cardinality are observable, we fix
first-occurrence order). -/
def cloudAccountsOf (emailMap : List (String × List UnifiedIdentity))
    (identity : UnifiedIdentity) : List String :=
  ((alFind emailMap (pyLower identity.email)).getD []).foldl
    (fun acc i =>
      match displaySource i with
      | some s => if s ∈ ["aws", "azure", "gcp"] then insertIfAbsent acc s else acc
      | none => acc)
    []

/-- The in-place update `process_all_enhanced` performs on one identity record
(assignments to `privilegeTier`, `exposureLevel`, `attackPathCount`,
`blastRadius` and `cloudAccounts`; no other field is assigned).  The loop's
mutations cannot influence later iterations because none of the five written
fields is ever read by the graph or by the tier/exposure computations, so the
per-identity update is a pure function of the original snapshot. -/
def enhancedUpdate (g : IdentityGraph)
    (emailMap : List (String × List UnifiedIdentity))
    (i : UnifiedIdentity) : UnifiedIdentity :=
  { i with
    privilegeTier := calculatePrivilegeTier g i
    exposureLevel := calculateExposureLevel g emailMap i
    attackPathCount := (findAdminTakeoverPaths g i.id).length
    blastRadius := (calculateBlastRadius g i.id).blastRadius
    cloudAccounts := cloudAccountsOf emailMap i }

/-- One row of the `process_all_enhanced` result. -/
structure EnhancedResult where
  identity : UnifiedIdentity
  blast : BlastRadiusResult
  attackPaths : List (List Hop)
  privilegeTier : String
  exposureLevel : ℚ

/-- `EnhancedRiskEngine(identities).process_all_enhanced()`. -/
def processAllEnhanced (identities : List UnifiedIdentity) :
    List EnhancedResult :=
  let g := mkIdentityGraph identities
  let emailMap := buildEmailMapAll identities
  identities.map (fun i =>
    { identity := enhancedUpdate g emailMap i
      blast := calculateBlastRadius g i.id
      attackPaths := (findAdminTakeoverPaths g i.id).take 5
      privilegeTier := (calculatePrivilegeTier g i).value
      exposureLevel := calculateExposureLevel g emailMap i })

/-! ## Flat risk engine (`risk_engine.py`, class `IdentityRiskEngine`) -/

/-- Characterwise upper-casing (`str.upper()` on the ASCII enum payloads). -/
def pyUpper (s : String) : String := ⟨s.data.map Char.toUpper⟩

/-- The `identity_map` of `IdentityRiskEngine._build_identity_map` (empty
emails are skipped). -/
def buildIdentityMap (identities : List UnifiedIdentity) :
    List (String × List UnifiedIdentity) :=
  identities.foldl
    (fun m i => if i.email = "" then m else alPush m (pyLower i.email) i) []

/-- `(i.provider if i.source == DEMO else i.source.value) in {"aws","azure","gcp"}`. -/
def isCloudDisplay (i : UnifiedIdentity) : Bool :=
  match displaySource i with
  | some s => s ∈ ["aws", "azure", "gcp"]
  | none => false

/-- `_get_risk_level(score)`. -/
def getRiskLevelStr (score : Nat) : String :=
  if score < 20 then "Low"
  else if score < 50 then "Medium"
  else if score < 80 then "High"
  else "Critical"

/-- The result dict of `calculate_risk_score`. -/
structure RiskScoreResult where
  identityId : String
  totalRiskScore : Nat
  riskLevel : String
  factors : List String
deriving DecidableEq

/-- `calculate_risk_score(identity)` of the flat engine.  `identities` is the
engine's snapshot (`self.identities`), `now` the current time in days. -/
def calculateRiskScore (identities : List UnifiedIdentity)
    (identity : UnifiedIdentity) (now : ℚ) : RiskScoreResult :=
  let identityMap := buildIdentityMap identities
  -- 1. No MFA
  let p1 : Nat × List String :=
    if identity.mfaEnabled then (0, []) else (30, ["No MFA enabled"])
  -- 2. Admin role
  let p2 : Nat × List String :=
    if identity.roles.any adminRole then
      (25, ["Account has administrative privileges"]) else (0, [])
  -- 3. Orphaned account
  let email : Option String :=
    if identity.email = "" then none else some (pyLower identity.email)
  let related : List UnifiedIdentity :=
    match email with
    | some e => (alFind identityMap e).getD []
    | none => [identity]
  let hasHrLink := related.any (fun i =>
    i.source = .hr ∨ (i.source = .demo ∧ i.provider = some "hr"))
  let p3 : Nat × List String :=
    if ¬ hasHrLink ∧ ¬ (identity.source = .hr) ∧
        ¬ (identity.source = .demo ∧ identity.provider = some "hr") then
      (20, ["Orphaned account (No HR linkage detected)"])
    else (0, [])
  -- 4. Inactive status
  let daysInactive : Option Int := identity.lastLogin.map (fun l => ⌊now - l⌋)
  let p4 : Nat × List String :=
    match daysInactive with
    | some days =>
      if days > 90 then
        (15, ["Account dormant for " ++ toString days ++ " days (Critical)"])
      else if days > 30 then
        (10, ["Account inactive for " ++ toString days ++ " days"])
      else (0, [])
    | none => (0, [])
  -- 5. Duplicate identity
  let p5 : Nat × List String :=
    if related.length > 1 then
      (10, ["Duplicate identity found across " ++ toString related.length
            ++ " providers"])
    else (0, [])
  -- 6. MFA inconsistency
  let p6 : Nat × List String :=
    if ((related.map (fun i => i.mfaEnabled)).dedup).length > 1 then
      (15, ["MFA status is inconsistent across providers"])
    else (0, [])
  -- 7. Role drift
  let cloudIdentities := related.filter isCloudDisplay
  let roleCounts := cloudIdentities.map (fun i => i.roles.length)
  let p7 : Nat × List String :=
    if cloudIdentities.length > 1 ∧
        roleCounts.foldl max 0 - roleCounts.foldl min (roleCounts.headD 0) > 2 then
      (15, ["Potential role drift: significant mismatch in role assignments across clouds"])
    else (0, [])
  -- 8. SaaS unlinked identity
  let isOkta := identity.source = .okta ∨
    (identity.source = .demo ∧ identity.provider = some "okta")
  let hasCloudLink := related.any isCloudDisplay
  let p8 : Nat × List String :=
    if isOkta ∧ ¬ hasCloudLink then
      (15, ["SaaS identity (Okta) not linked to any cloud IAM provider"])
    else (0, [])
  -- 9. Privilege escalation
  let p9 : Nat × List String :=
    if identity.roles.length ≥ 10 then
      (20, ["Suspiciously high number of assigned roles"]) else (0, [])
  -- 10. Excessive groups
  let p10 : Nat × List String :=
    if identity.groupMembership.length > 5 then
      (10, ["Excessive group memberships (" ++ toString identity.groupMembership.length ++ ")"])
    else (0, [])
  -- 11. Production access
  let p11 : Nat × List String :=
    if identity.roles.any (fun r => strHas (pyLower r) "prod") ∨
        identity.roles.any (fun r => strHas (pyLower r) "production") then
      (20, ["Direct production environment access detected"]) else (0, [])
  -- 12. Public repo admin
  let isGithub := identity.source = .github ∨
    (identity.source = .demo ∧ identity.provider = some "github")
  let p12 : Nat × List String :=
    if isGithub ∧ identity.roles.any adminRole then
      (15, ["Administrative rights on potentially public repositories"])
    else (0, [])
  -- 13. Stale credentials
  let p13 : Nat × List String :=
    match daysInactive with
    | some days =>
      if days > 90 then (10, ["Stale security credentials (>90 days)"]) else (0, [])
    | none => (0, [])
  -- 14. Shared account
  let sharedKeywords := ["svc", "service", "admin", "test", "demo", "temp", "root"]
  let p14 : Nat × List String :=
    if sharedKeywords.any (fun kw => strHas (emailLocal (pyLower identity.email)) kw)
        ∧ ¬ identity.mfaEnabled then
      (20, ["Likely shared or service account with interactive login enabled"])
    else (0, [])
  let score := p1.1 + p2.1 + p3.1 + p4.1 + p5.1 + p6.1 + p7.1 + p8.1 + p9.1 +
    p10.1 + p11.1 + p12.1 + p13.1 + p14.1
  let total := min score 100
  { identityId := identity.id
    totalRiskScore := total
    riskLevel := getRiskLevelStr total
    factors := p1.2 ++ p2.2 ++ p3.2 ++ p4.2 ++ p5.2 ++ p6.2 ++ p7.2 ++ p8.2 ++
      p9.2 ++ p10.2 ++ p11.2 ++ p12.2 ++ p13.2 ++ p14.2 }

/-! ## Compliance engine (`compliance_engine.py`, class `ComplianceEngine`) -/

/-- The policy keys with their weights (`COMPLIANCE_POLICIES`, insertion
order; the name/description/category strings are not consumed by the score
computation). -/
def COMPLIANCE_POLICY_WEIGHTS : List (String × Nat) :=
  [("least_privilege", 25), ("zero_trust", 20), ("mfa_enforcement", 25),
   ("dormant_account", 15), ("separation_of_duties", 15)]

/-- `COMPLIANCE_POLICIES[p]["weight"]` (total: violations only ever carry the
five known keys). -/
def policyWeight (p : String) : Nat := (alFind COMPLIANCE_POLICY_WEIGHTS p).getD 0

/-- `TOXIC_COMBINATIONS` of `compliance_engine.py` = `TOXIC_ROLE_SETS` of
`remediation_engine.py` (identical literals). -/
def TOXIC_COMBINATIONS : List (List String × List String) :=
  [(["admin", "superadmin", "owner", "globaladmin", "root"],
    ["billing", "finance", "payment"]),
   (["admin", "superadmin", "owner"], ["auditor", "compliance", "security"]),
   (["developer", "engineer"], ["deployer", "release", "production"]),
   (["dbadmin", "dba"], ["developer", "engineer"])]

/-- `any(any(kw in r for kw in kws) for r in roles_lower)`. -/
def rolesHaveAny (rolesLower : List String) (kws : List String) : Bool :=
  rolesLower.any (fun r => kws.any (fun kw => strHas r kw))

/-- One violation dict. -/
structure Violation where
  policy : String
  severity : String
  message : String
  remediation : String
deriving DecidableEq

/-- The result dict of `check_identity_compliance`. -/
structure ComplianceResult where
  identityId : String
  email : String
  complianceScore : Int
  violations : List Violation
  passedPolicies : List String
  totalChecks : Nat
  violationsCount : Nat
deriving DecidableEq

/-- `check_identity_compliance(identity)`; `identities` is the engine
snapshot, `now` the current time in days. -/
def checkIdentityCompliance (identities : List UnifiedIdentity)
    (identity : UnifiedIdentity) (now : ℚ) : ComplianceResult :=
  let rolesLower := (identity.roles.map pyLower).dedup
  let adminRolesCount := (rolesLower.filter (fun r =>
    ["admin", "owner", "superadmin", "root", "globaladmin"].any
      (fun kw => strHas r kw))).length
  -- 1. Least privilege
  let c1 : List Violation × List String :=
    if identity.roles.length > 8 ∨ adminRolesCount > 2 then
      ([⟨"least_privilege", "high",
         "User has " ++ toString identity.roles.length ++ " roles including "
           ++ toString adminRolesCount
           ++ " admin roles — exceeds least privilege threshold",
         "Audit and remove unnecessary roles. Limit admin privileges to specific scopes."⟩],
       [])
    else if adminRolesCount > 0 ∧ ¬ identity.mfaEnabled then
      ([⟨"least_privilege", "critical",
         "Admin account without MFA violates least privilege + authentication policy",
         "Immediately enable MFA and reduce privilege scope."⟩], [])
    else ([], ["least_privilege"])
  -- 2. Zero trust
  let isCrossCloud :=
    identities.countP (fun i =>
      i.email ≠ "" ∧ identity.email ≠ "" ∧
      pyLower i.email = pyLower identity.email ∧ isCloudDisplay i) > 1
  let c2 : List Violation × List String :=
    if isCrossCloud ∧ ¬ identity.mfaEnabled then
      ([⟨"zero_trust", "critical",
         "Cross-cloud identity without MFA violates Zero Trust policy",
         "Enable MFA on all linked cloud accounts and implement conditional access policies."⟩],
       [])
    else if isCrossCloud ∧ adminRolesCount > 0 then
      ([⟨"zero_trust", "high",
         "Cross-cloud admin access increases attack surface — requires enhanced verification",
         "Implement step-up authentication for cross-cloud admin operations."⟩], [])
    else ([], ["zero_trust"])
  -- 3. MFA enforcement
  let c3 : List Violation × List String :=
    if ¬ identity.mfaEnabled then
      ([⟨"mfa_enforcement", (if adminRolesCount > 0 then "critical" else "high"),
         "MFA not enabled on " ++ pyUpper identity.source.value ++ " account",
         "Enable MFA immediately. Use hardware keys for admin accounts, authenticator apps for standard users."⟩],
       [])
    else ([], ["mfa_enforcement"])
  -- 4. Dormant account
  let c4 : List Violation × List String :=
    match identity.lastLogin with
    | some l =>
      let days : Int := ⌊now - l⌋
      if days > 90 then
        ([⟨"dormant_account", "high",
           "Account inactive for " ++ toString days
             ++ " days — exceeds 90-day dormancy policy",
           "Disable the account and reassign any active responsibilities."⟩], [])
      else if days > 30 then
        ([⟨"dormant_account", "medium",
           "Account inactive for " ++ toString days
             ++ " days — approaching dormancy threshold",
           "Review account necessity. Contact user to verify continued access requirement."⟩],
         [])
      else ([], ["dormant_account"])
    | none =>
      if ¬ identity.isActive then
        ([⟨"dormant_account", "medium",
           "Inactive account with no recorded last login",
           "Verify account status and disable if no longer needed."⟩], [])
      else ([], ["dormant_account"])
  -- 5. Separation of duties (first toxic pair wins, `for … else` otherwise)
  let c5 : List Violation × List String :=
    if TOXIC_COMBINATIONS.any (fun pr =>
        rolesHaveAny rolesLower pr.1 ∧ rolesHaveAny rolesLower pr.2) then
      ([⟨"separation_of_duties", "high",
         "Toxic role combination detected: Multiple conflicting privileges assigned to same identity",
         "Separate conflicting roles into different accounts or request formal exception with compensating controls."⟩],
       [])
    else ([], ["separation_of_duties"])
  let violations := c1.1 ++ c2.1 ++ c3.1 ++ c4.1 ++ c5.1
  let totalWeight : ℕ := (COMPLIANCE_POLICY_WEIGHTS.map (fun p => p.2)).sum
  let uniqueViolatedWeight : ℕ :=
    (((violations.map (fun v => v.policy)).dedup).map policyWeight).sum
  let score : Int :=
    max 0 (pyRound ((1 - (uniqueViolatedWeight : ℚ) / (totalWeight : ℚ)) * 100))
  { identityId := identity.id
    email := identity.email
    complianceScore := score
    violations := violations
    passedPolicies := c1.2 ++ c2.2 ++ c3.2 ++ c4.2 ++ c5.2
    totalChecks := COMPLIANCE_POLICY_WEIGHTS.length
    violationsCount := violations.length }

/-! ## Remediation engine (`remediation_engine.py`, class `RemediationEngine`) -/

/-- One remediation action dict (template fields spread into the action, plus
the per-identity fields; `rolesToReview`/`daysInactive` are the keys only some
templates add). -/
structure Action where
  title : String
  description : String
  category : String
  autoRemediationPossible : Bool
  estimatedRiskReduction : Nat
  identityId : String
  email : String
  provider : String
  priorityLevel : String
  details : String
  rolesToReview : Option (List String) := none
  daysInactive : Option Int := none
deriving DecidableEq

/-- `_get_priority(risk_score, is_admin)`. -/
def getPriority (riskScore : ℚ) (isAdmin : Bool) : String :=
  if riskScore ≥ 80 ∨ (isAdmin ∧ riskScore ≥ 50) then "critical"
  else if riskScore ≥ 60 then "high"
  else if riskScore ≥ 30 then "medium"
  else "low"

/-- `priority_order.get(priority, 3)`. -/
def priorityRank (p : String) : Nat :=
  if p = "critical" then 0 else if p = "high" then 1
  else if p = "medium" then 2 else 3

/-- Comparison used for the stable priority sort of the action list. -/
def actionKeyLe (a b : Action) : Bool := priorityRank a.priorityLevel ≤ priorityRank b.priorityLevel

/-- `generate_for_identity(identity)`; `identities` is the engine snapshot
(`self.identities`), `now` the current time in days. -/
def generateForIdentity (identities : List UnifiedIdentity)
    (identity : UnifiedIdentity) (now : ℚ) : List Action :=
  let rolesLower := (identity.roles.map pyLower).dedup
  let isAdmin := rolesHaveAny rolesLower
    ["admin", "owner", "superadmin", "root", "globaladmin"]
  let srcValue := identity.source.value
  -- 1. MFA not enabled
  let a1 : List Action :=
    if ¬ identity.mfaEnabled then
      [{ title := "Enable Multi-Factor Authentication"
         description := "Enable MFA on all accounts to prevent credential-based attacks"
         category := "Authentication", autoRemediationPossible := true
         estimatedRiskReduction := 25, identityId := identity.id
         email := identity.email, provider := srcValue
         priorityLevel := if isAdmin then "critical" else "high"
         details := "Enable MFA on " ++ pyUpper srcValue ++ " account for "
           ++ identity.email }]
    else []
  -- 2. Excessive roles
  let a2 : List Action :=
    if identity.roles.length > 8 then
      let excess := identity.roles.drop 5
      [{ title := "Remove Unused / Excessive Roles"
         description := "Remove roles that exceed operational requirements"
         category := "Access Control", autoRemediationPossible := true
         estimatedRiskReduction := 15, identityId := identity.id
         email := identity.email, provider := srcValue
         priorityLevel := getPriority identity.riskScore isAdmin
         details := "Review and remove " ++ toString excess.length
           ++ " potentially excessive roles: "
           ++ String.intercalate ", " (excess.take 5)
         rolesToReview := some excess }]
    else []
  -- 3. Dormant account
  let a3 : List Action :=
    match identity.lastLogin with
    | some l =>
      let days : Int := ⌊now - l⌋
      if days > 90 then
        [{ title := "Disable Dormant Account"
           description := "Disable accounts inactive for extended periods"
           category := "Account Lifecycle", autoRemediationPossible := true
           estimatedRiskReduction := 20, identityId := identity.id
           email := identity.email, provider := srcValue
           priorityLevel := if isAdmin then "high" else "medium"
           details := "Account inactive for " ++ toString days
             ++ " days. Disable or verify with user."
           daysInactive := some days }]
      else []
    | none => []
  -- 4. Admin privilege reduction
  let a4 : List Action :=
    if isAdmin ∧ identity.roles.length > 3 then
      [{ title := "Reduce Privilege Scope"
         description := "Downgrade admin privileges to least-privilege roles"
         category := "Privilege Management", autoRemediationPossible := false
         estimatedRiskReduction := 20, identityId := identity.id
         email := identity.email, provider := srcValue
         priorityLevel := getPriority identity.riskScore true
         details := "Admin account has " ++ toString identity.roles.length
           ++ " roles. Evaluate if full admin is required." }]
    else []
  -- 5. Toxic role combinations (first pair wins)
  let a5 : List Action :=
    if TOXIC_COMBINATIONS.any (fun pr =>
        rolesHaveAny rolesLower pr.1 ∧ rolesHaveAny rolesLower pr.2) then
      [{ title := "Separate Toxic Role Combinations"
         description := "Split conflicting duties into separate accounts"
         category := "Governance", autoRemediationPossible := false
         estimatedRiskReduction := 15, identityId := identity.id
         email := identity.email, provider := srcValue
         priorityLevel := "high"
         details := "Toxic combination detected: Conflict found between administrative and sensitive business functions." }]
    else []
  -- 6. Orphaned SaaS identity
  let a6 : List Action :=
    if identity.source = .okta ∧
        ¬ identities.any (fun i =>
          i.email ≠ "" ∧ identity.email ≠ "" ∧
          pyLower i.email = pyLower identity.email ∧
          (i.source = .aws ∨ i.source = .azure ∨ i.source = .gcp)) then
      [{ title := "Link Orphaned SaaS Identity"
         description := "Link unlinked SaaS identity to cloud IAM provider"
         category := "Identity Governance", autoRemediationPossible := false
         estimatedRiskReduction := 10, identityId := identity.id
         email := identity.email, provider := srcValue
         priorityLevel := "medium"
         details := "Okta identity " ++ identity.email
           ++ " not linked to any cloud IAM provider." }]
    else []
  -- 7. Cross-cloud admin
  let cloudAdminCount := identities.countP (fun i =>
    i.email ≠ "" ∧ identity.email ≠ "" ∧
    pyLower i.email = pyLower identity.email ∧
    (i.source = .aws ∨ i.source = .azure ∨ i.source = .gcp) ∧
    i.roles.any adminRole)
  let a7 : List Action :=
    if cloudAdminCount > 1 then
      [{ title := "Restrict Cross-Cloud Admin Access"
         description := "Apply conditional access policies for cross-cloud admin operations"
         category := "Zero Trust", autoRemediationPossible := false
         estimatedRiskReduction := 15, identityId := identity.id
         email := identity.email, provider := srcValue
         priorityLevel := "high"
         details := "Admin access across " ++ toString cloudAdminCount
           ++ " cloud providers. Apply conditional access." }]
    else []
  stableSort actionKeyLe (a1 ++ a2 ++ a3 ++ a4 ++ a5 ++ a6 ++ a7)

/-! ## Specification-side definitions

These follow the wording of the specification (not the code); they are only
used on the right-hand side of refinement statements and inside
counterexamples. -/

/-- Spec-side raw blast score: `Σ 1/(depth+1)` over the reached identities,
times `(1 + 0.3·adminReachableCount)`, times `(1 + 0.15·distinctSourceCount)`
(the distinct-source count as the cardinality of the set of sources). -/
def specRawBlast (g : IdentityGraph) (identityId : String) : ℚ :=
  let conn := getConnectedIdentities g identityId 3
  ((conn.map (fun c => 1 / ((c.depth : ℚ) + 1))).sum) *
    (1 + ((conn.countP (fun c => adminAtNode g c.id)) : ℚ) * (3/10)) *
    (1 + (((conn.map (fun c => c.src)).toFinset.card) : ℚ) * (3/20))

/-- Spec-side: consecutive steps `(target, relationship, weight)` each realised
by an entry of the adjacency structure. -/
def stepsOk (g : IdentityGraph) : String → List (String × String × ℚ) → Bool
  | _, [] => true
  | cur, s :: rest =>
    decide ((⟨s.1, s.2.1, s.2.2⟩ : AdjEntry) ∈ alGet g.adjacency cur) &&
      stepsOk g s.1 rest

/-- Spec-side (wording of C3): a non-empty simple path of at most 4 edges in
the adjacency structure from `start` to a node whose roles contain an
admin substring. -/
def claimAdminPath (g : IdentityGraph) (start : String)
    (steps : List (String × String × ℚ)) : Bool :=
  !steps.isEmpty && decide (steps.length ≤ 4) && stepsOk g start steps &&
    decide ((start :: steps.map (fun s => s.1)).Nodup) &&
    adminAtNode g ((steps.map (fun s => s.1)).getLastD "")

/-- Spec-side hop chain: consecutive adjacency entries between *identity*
nodes, each hop record carrying the node's email and the edge's relationship
and weight. -/
def hopChain (g : IdentityGraph) : String → List Hop → Bool
  | _, [] => true
  | cur, h :: rest =>
    decide ((⟨h.id, h.relationship, h.weight⟩ : AdjEntry) ∈ alGet g.adjacency cur) &&
      (match alFind g.nodes h.id with
       | some node => h.email == node.email
       | none => false) &&
      hopChain g h.id rest

/-- Spec-side (amended C3): a non-empty simple hop chain of at most 4 edges
through identity nodes, from `start` to an admin node, with no intermediate
admin node. -/
def amendedAdminPath (g : IdentityGraph) (start : String) (hops : List Hop) :
    Bool :=
  !hops.isEmpty && decide (hops.length ≤ 4) && hopChain g start hops &&
    decide ((start :: hops.map (fun h => h.id)).Nodup) &&
    adminAtNode g ((hops.map (fun h => h.id)).getLastD "") &&
    hops.dropLast.all (fun h => !adminAtNode g h.id)

/-- A hop suffix that the DFS of `_dfs_paths` must enumerate: from `current`
(not itself a target), consecutive adjacency entries through identity nodes,
ending at the first target reached.  The empty suffix means `current` is the
target. -/
def goodSuffix (g : IdentityGraph) (targets : List String) :
    String → List Hop → Prop
  | current, [] => current ∈ targets
  | current, h :: rest =>
    current ∉ targets ∧
    (⟨h.id, h.relationship, h.weight⟩ : AdjEntry) ∈ alGet g.adjacency current ∧
    (∃ n, alFind g.nodes h.id = some n ∧ h.email = n.email) ∧
    goodSuffix g targets h.id rest

/-- Spec-side unique violated policy weight: each violated policy's weight
counted once (sum over the *set* of violated policy keys). -/
def specUniqueViolatedWeight (violations : List Violation) : Nat :=
  ∑ p ∈ (violations.map (fun v => v.policy)).toFinset, policyWeight p

/-- BFS termination measure: pending queue entries plus adjacency targets not
yet visited.  Strictly decreases at every iteration of `bfsLoop`, and is
dominated by the initial fuel `bfsFuel`. -/
def bfsMeasure (g : IdentityGraph) (queue : List (String × Nat × String))
    (visited : List String) : Nat :=
  queue.length + ((allTargets g.adjacency).toFinset \ visited.toFinset).card

/-! ## Concrete inputs for counterexamples and witnesses -/

/-- C2 counterexample input: two identities sharing an email. -/
def cex2A : UnifiedIdentity := { id := "a", email := "x@y", source := .aws }

/-- C2 counterexample input. -/
def cex2B : UnifiedIdentity := { id := "b", email := "x@y", source := .azure }

/-- C2 counterexample graph: a single `cross_provider` edge; the reached set
from `"a"` is `[b at depth 1]`, so `raw = (1/2)·1·1.15 = 0.575` and
`raw·10 = 5.75`: `int(...)` gives 5, `round(...)` gives 6. -/
def cexGraph2 : IdentityGraph := mkIdentityGraph [cex2A, cex2B]

/-- C3 counterexample input: a non-admin identity sharing only a group with
an admin identity. -/
def cex3A : UnifiedIdentity :=
  { id := "a", email := "a@x", source := .aws, groupMembership := ["g"] }

/-- C3 counterexample input. -/
def cex3B : UnifiedIdentity :=
  { id := "b", email := "b@x", source := .aws, roles := ["admin"],
    groupMembership := ["g"] }

/-- C3 counterexample graph: the adjacency structure contains the simple path
`a → vgroup:g → b` (2 edges) ending at an admin node, but the DFS skips
virtual nodes, so `find_admin_takeover_paths("a")` is empty. -/
def cexGraph3 : IdentityGraph := mkIdentityGraph [cex3A, cex3B]

/-- C4 counterexample input: `a` shares an email with `c` and a group with
`b`. -/
def cex4A : UnifiedIdentity :=
  { id := "a", email := "e1@x", source := .aws, groupMembership := ["g"] }

/-- C4 counterexample input: `c` is linked to `b`. -/
def cex4C : UnifiedIdentity :=
  { id := "c", email := "e1@x", source := .azure, linkedAccounts := ["b"] }

/-- C4 counterexample input: `b` shares only the group `g` with `a`. -/
def cex4B : UnifiedIdentity :=
  { id := "b", email := "e2@x", source := .aws, groupMembership := ["g"] }

/-- C4 counterexample graph: with `maxDepth = 2` the BFS discovers `b` through
the real-edge chain `a → c → b` before the virtual group node is expanded, so
`b` is reported at depth 2, not 1. -/
def cexGraph4 : IdentityGraph := mkIdentityGraph [cex4A, cex4C, cex4B]

/-- C8 counterexample input: an AWS admin with an *empty* email. -/
def cex8A : UnifiedIdentity :=
  { id := "e1", email := "", source := .aws, roles := ["AdministratorAccess"],
    mfaEnabled := true }

/-- C8 counterexample input: an Azure admin with an *empty* email. -/
def cex8B : UnifiedIdentity :=
  { id := "e2", email := "", source := .azure, roles := ["Global Administrator"],
    mfaEnabled := true }

/-- C8 witness input (the spec's scenario 3). -/
def wit8A : UnifiedIdentity :=
  { id := "b1", email := "bob@co", source := .aws, roles := ["AdministratorAccess"],
    mfaEnabled := true }

/-- C8 witness input. -/
def wit8B : UnifiedIdentity :=
  { id := "b2", email := "Bob@CO", source := .azure, roles := ["Global Administrator"],
    mfaEnabled := true }

/-- C5/C6/C9 witness graph: two identities sharing an email, one an admin. -/
def witGraphIds : List UnifiedIdentity :=
  [{ id := "u1", email := "w@x", source := .aws, roles := ["admin"] },
   { id := "u2", email := "w@x", source := .okta }]

/-- C5/C6/C9 witness graph. -/
def witGraph : IdentityGraph := mkIdentityGraph witGraphIds

/-- C4 witness input. -/
def wit4A : UnifiedIdentity :=
  { id := "p", email := "p@x", source := .aws, groupMembership := ["devs"] }

/-- C4 witness input. -/
def wit4B : UnifiedIdentity :=
  { id := "q", email := "q@x", source := .gcp, groupMembership := ["devs"] }

/-- C3 witness inputs: `s → t` by a linked account, `t` an admin. -/
def wit3S : UnifiedIdentity :=
  { id := "s", email := "s@x", source := .aws, linkedAccounts := ["t"] }

/-- C3 witness input. -/
def wit3T : UnifiedIdentity :=
  { id := "t", email := "t@x", source := .aws, roles := ["GlobalAdmin"] }

/-- C3 witness graph. -/
def witGraph3 : IdentityGraph := mkIdentityGraph [wit3S, wit3T]

/-! # Theorems

## Association-list lemmas -/

theorem alGet_alPush {β : Type} (m : List (String × List β)) (k x : String)
    (v : β) :
    alGet (alPush m k v) x = if x = k then alGet m x ++ [v] else alGet m x := by
  induction m with
  | nil =>
    by_cases h : x = k
    · subst h
      simp [alPush, alGet, alFind, List.find?]
    · have h' : ¬ (k = x) := fun hh => h hh.symm
      simp [alPush, alGet, alFind, List.find?, h, h']
  | cons p rest ih =>
    obtain ⟨k', l⟩ := p
    by_cases hk : k' = k
    · subst hk
      by_cases hx : x = k'
      · subst hx
        simp [alPush, alGet, alFind, List.find?]
      · have hx' : ¬ (k' = x) := fun hh => hx hh.symm
        simp [alPush, alGet, alFind, List.find?, hx, hx']
    · by_cases hx : x = k'
      · subst hx
        have hk' : ¬ (x = k) := fun hh => hk hh
        simp [alPush, if_neg hk, alGet, alFind, List.find?, hk']
      · have hx' : ¬ (k' = x) := fun hh => hx hh.symm
        simp only [alPush, if_neg hk]
        simp only [alGet, alFind, List.find?, decide_eq_false hx',
          Bool.false_eq_true, if_false] at ih ⊢
        exact ih

theorem alFind_mem {β : Type} {m : List (String × β)} {k : String} {v : β}
    (h : alFind m k = some v) : (k, v) ∈ m := by
  unfold alFind at h
  cases hf : m.find? (fun p => p.1 = k) with
  | none => rw [hf] at h; cases h
  | some p =>
    rw [hf] at h
    injection h with h2
    have hp : p.1 = k := by simpa using List.find?_some hf
    have hm : p ∈ m := List.mem_of_find?_eq_some hf
    obtain ⟨p1, p2⟩ := p
    simp only at hp h2
    rw [← hp, ← h2]
    exact hm

theorem alFind_isSome_of_mem {β : Type} {m : List (String × β)} {k : String}
    {v : β} (h : (k, v) ∈ m) : (alFind m k).isSome := by
  induction m with
  | nil => simp at h
  | cons p rest ih =>
    rcases List.mem_cons.mp h with h1 | h1
    · rw [← h1]
      simp [alFind, List.find?]
    · simp only [alFind, List.find?]
      by_cases hp : p.1 = k
      · simp [hp]
      · simpa [hp, alFind] using ih h1

/-! ## C1 -/

/-- C1: for every identity list, `get_risk_distribution()` on the graph built
from it raises `AttributeError` instead of returning the bucket counts — the
constructor never assigns the `identities` attribute the method reads. -/
theorem c1_get_risk_distribution_attribute_error
    (identities : List UnifiedIdentity) :
    getRiskDistribution (mkIdentityGraph identities) =
      .error "AttributeError: 'IdentityGraph' object has no attribute 'identities'" := by
  rfl

/-! ## C6 -/

/-- C6: for an identity id that is not a node of the graph, every per-identity
graph query returns an empty result (and the blast-radius dict carries
`blastRadius = 0`, `affectedIdentities = 0`) — no query raises. -/
theorem c6_unknown_id_queries_empty (g : IdentityGraph) (identityId : String)
    (h : alFind g.nodes identityId = none) :
    (∀ maxDepth, getConnectedIdentities g identityId maxDepth = []) ∧
    findAdminTakeoverPaths g identityId = [] ∧
    detectLateralMovementPaths g identityId = [] ∧
    calculateBlastRadius g identityId = ⟨identityId, 0, 0, none⟩ := by
  refine ⟨fun maxDepth => ?_, ?_, ?_, ?_⟩
  · simp [getConnectedIdentities, h]
  · simp [findAdminTakeoverPaths, h]
  · simp [detectLateralMovementPaths, h]
  · simp [calculateBlastRadius, h]

/-- C6 witness: the queries on the two-identity witness graph at the absent
id `"ghost"`. -/
theorem c6_unknown_id_queries_empty_witness :
    alFind witGraph.nodes "ghost" = none ∧
    ((∀ maxDepth, getConnectedIdentities witGraph "ghost" maxDepth = []) ∧
     findAdminTakeoverPaths witGraph "ghost" = [] ∧
     detectLateralMovementPaths witGraph "ghost" = [] ∧
     calculateBlastRadius witGraph "ghost" = ⟨"ghost", 0, 0, none⟩) :=
  ⟨by decide, c6_unknown_id_queries_empty witGraph "ghost" (by decide)⟩

/-! ## C5 -/

/-- Symmetry of an adjacency map: every stored edge entry has its mirror
entry at the target node. -/
def AdjSym (adj : List (String × List AdjEntry)) : Prop :=
  ∀ (x : String) (e : AdjEntry), e ∈ alGet adj x →
    (⟨x, e.rel, e.weight⟩ : AdjEntry) ∈ alGet adj e.target

theorem foldl_preserves {α β : Type} (P : β → Prop) (f : β → α → β)
    (hf : ∀ b a, P b → P (f b a)) :
    ∀ (l : List α) (b : β), P b → P (l.foldl f b) := by
  intro l
  induction l with
  | nil => intro b hb; exact hb
  | cons a l ih => intro b hb; exact ih (f b a) (hf b a hb)

theorem mem_alGet_alPush_of_mem {β : Type} {m : List (String × List β)}
    {x : String} {e : β} (k : String) (v : β) (h : e ∈ alGet m x) :
    e ∈ alGet (alPush m k v) x := by
  rw [alGet_alPush]
  by_cases hx : x = k
  · simp [hx, List.mem_append]
    left
    rw [← hx]; exact h
  · simpa [hx] using h

theorem mem_alGet_addEdge_of_mem {adj : List (String × List AdjEntry)}
    {x : String} {e : AdjEntry} (s t rel : String) (w : ℚ)
    (h : e ∈ alGet adj x) : e ∈ alGet (addEdge adj s t rel w) x := by
  unfold addEdge
  exact mem_alGet_alPush_of_mem t ⟨s, rel, w⟩ (mem_alGet_alPush_of_mem s ⟨t, rel, w⟩ h)

theorem addEdge_mem_fwd (adj : List (String × List AdjEntry))
    (s t rel : String) (w : ℚ) :
    (⟨t, rel, w⟩ : AdjEntry) ∈ alGet (addEdge adj s t rel w) s := by
  unfold addEdge
  rw [alGet_alPush, alGet_alPush]
  by_cases hst : s = t <;> simp [hst]

theorem addEdge_mem_bwd (adj : List (String × List AdjEntry))
    (s t rel : String) (w : ℚ) :
    (⟨s, rel, w⟩ : AdjEntry) ∈ alGet (addEdge adj s t rel w) t := by
  unfold addEdge
  rw [alGet_alPush]
  simp

theorem adjSym_addEdge {adj : List (String × List AdjEntry)}
    (hsym : AdjSym adj) (s t rel : String) (w : ℚ) :
    AdjSym (addEdge adj s t rel w) := by
  intro x e he
  unfold addEdge at he
  rw [alGet_alPush, alGet_alPush] at he
  by_cases hxt : x = t
  · rw [if_pos hxt] at he
    by_cases hxs : x = s
    · rw [if_pos hxs] at he
      rcases List.mem_append.mp he with he1 | he1
      · rcases List.mem_append.mp he1 with he2 | he2
        · exact mem_alGet_addEdge_of_mem s t rel w (hsym x e he2)
        · have he3 : e = ⟨t, rel, w⟩ := by simpa using he2
          subst he3
          simpa [hxs] using addEdge_mem_bwd adj s t rel w
      · have he3 : e = ⟨s, rel, w⟩ := by simpa using he1
        subst he3
        simpa [hxt] using addEdge_mem_fwd adj s t rel w
    · rw [if_neg hxs] at he
      rcases List.mem_append.mp he with he1 | he1
      · exact mem_alGet_addEdge_of_mem s t rel w (hsym x e he1)
      · have he3 : e = ⟨s, rel, w⟩ := by simpa using he1
        subst he3
        simpa [hxt] using addEdge_mem_fwd adj s t rel w
  · rw [if_neg hxt] at he
    by_cases hxs : x = s
    · rw [if_pos hxs] at he
      rcases List.mem_append.mp he with he1 | he1
      · exact mem_alGet_addEdge_of_mem s t rel w (hsym x e he1)
      · have he3 : e = ⟨t, rel, w⟩ := by simpa using he1
        subst he3
        simpa [hxs] using addEdge_mem_bwd adj s t rel w
    · rw [if_neg hxs] at he
      exact mem_alGet_addEdge_of_mem s t rel w (hsym x e he)

theorem adjSym_crossProviderStage (emailToIds : List (String × List String))
    {adj : List (String × List AdjEntry)} (h : AdjSym adj) :
    AdjSym (crossProviderStage emailToIds adj) := by
  unfold crossProviderStage
  refine foldl_preserves AdjSym _ (fun b bucket hb => ?_) emailToIds adj h
  by_cases hl : bucket.2.length > 1
  · simp only [if_pos hl]
    exact foldl_preserves AdjSym
      (fun adj pr => addEdge adj pr.1 pr.2 "cross_provider" (Rat.divInt 4 5))
      (fun b pr hb => adjSym_addEdge hb pr.1 pr.2 "cross_provider" (Rat.divInt 4 5))
      (orderedPairs bucket.2) b hb
  · simpa [hl] using hb

theorem adjSym_linkedStage (nodes : List (String × UnifiedIdentity))
    (identities : List UnifiedIdentity)
    {adj : List (String × List AdjEntry)} (h : AdjSym adj) :
    AdjSym (linkedStage nodes identities adj) := by
  unfold linkedStage
  refine foldl_preserves AdjSym _ (fun b i hb => ?_) identities adj h
  refine foldl_preserves AdjSym _ (fun b linked hb => ?_) i.linkedAccounts b hb
  by_cases hn : (alFind nodes linked).isSome
  · simpa [hn] using adjSym_addEdge hb i.id linked "linked_account" (Rat.divInt 9 10)
  · simpa [hn] using hb

theorem adjSym_groupStage (identities : List UnifiedIdentity)
    {adj : List (String × List AdjEntry)} (h : AdjSym adj) :
    AdjSym (groupStage identities adj) := by
  unfold groupStage
  refine foldl_preserves AdjSym _ (fun b i hb => ?_) identities adj h
  exact foldl_preserves AdjSym
    (fun adj grp => addEdge adj i.id ("vgroup:" ++ grp) "member_of" (Rat.divInt 1 2))
    (fun b grp hb => adjSym_addEdge hb i.id ("vgroup:" ++ grp) "member_of"
      (Rat.divInt 1 2))
    i.groupMembership b hb

theorem adjSym_roleStage (identities : List UnifiedIdentity)
    {adj : List (String × List AdjEntry)} (h : AdjSym adj) :
    AdjSym (roleStage identities adj) := by
  unfold roleStage
  refine foldl_preserves AdjSym _ (fun b i hb => ?_) identities adj h
  refine foldl_preserves AdjSym _ (fun b role hb => ?_) i.roles b hb
  by_cases hw : getRoleWeight role ≥ Rat.divInt 7 10
  · simpa [hw] using adjSym_addEdge hb i.id ("vrole:" ++ role) "has_role" _
  · simpa [hw] using hb

theorem adjSym_mkIdentityGraph (identities : List UnifiedIdentity) :
    AdjSym (mkIdentityGraph identities).adjacency := by
  unfold mkIdentityGraph
  simp only
  exact adjSym_roleStage _ (adjSym_groupStage _ (adjSym_linkedStage _ _
    (adjSym_crossProviderStage _ (by intro x e he; simp [alGet, alFind] at he))))

/-- C5: the adjacency of every graph built from an identity list is
symmetric — each entry `(b, rel, w)` stored at node `a` has the mirror entry
`(a, rel, w)` stored at `b`. -/
theorem c5_adjacency_symmetric (identities : List UnifiedIdentity)
    (a : String) (e : AdjEntry)
    (h : e ∈ alGet (mkIdentityGraph identities).adjacency a) :
    (⟨a, e.rel, e.weight⟩ : AdjEntry) ∈
      alGet (mkIdentityGraph identities).adjacency e.target :=
  adjSym_mkIdentityGraph identities a e h

/-- C5 witness: the cross-provider edge of the witness graph, mirrored. -/
theorem c5_adjacency_symmetric_witness :
    (⟨"u2", "cross_provider", Rat.divInt 4 5⟩ : AdjEntry) ∈
      alGet (mkIdentityGraph witGraphIds).adjacency "u1" ∧
    (⟨"u1", "cross_provider", Rat.divInt 4 5⟩ : AdjEntry) ∈
      alGet (mkIdentityGraph witGraphIds).adjacency "u2" :=
  have hm : (⟨"u2", "cross_provider", Rat.divInt 4 5⟩ : AdjEntry) ∈
      alGet (mkIdentityGraph witGraphIds).adjacency "u1" :=
    List.mem_cons_self _ _
  ⟨hm, c5_adjacency_symmetric witGraphIds "u1" ⟨"u2", "cross_provider", Rat.divInt 4 5⟩ hm⟩

/-! ## C10 -/

/-- C10: `process_all_enhanced` writes only the derived fields
(`privilegeTier`, `exposureLevel`, `attackPathCount`, `blastRadius`,
`cloudAccounts`); every other field of every identity record is unchanged
after the call. -/
theorem c10_process_all_enhanced_frame (identities : List UnifiedIdentity) :
    List.Forall₂ (fun (u i : UnifiedIdentity) =>
        u.id = i.id ∧ u.email = i.email ∧ u.source = i.source ∧
        u.provider = i.provider ∧ u.roles = i.roles ∧
        u.mfaEnabled = i.mfaEnabled ∧ u.lastLogin = i.lastLogin ∧
        u.isActive = i.isActive ∧ u.riskScore = i.riskScore ∧
        u.linkedAccounts = i.linkedAccounts ∧
        u.groupMembership = i.groupMembership)
      ((processAllEnhanced identities).map (fun r => r.identity)) identities := by
  unfold processAllEnhanced
  simp only [List.map_map, Function.comp]
  rw [List.forall₂_map_left_iff]
  rw [List.forall₂_same]
  intro i hi
  simp [enhancedUpdate]

/-! ## C7 -/

theorem pyRound_intCast (n : ℤ) : pyRound (n : ℚ) = n := by
  unfold pyRound
  rw [Int.floor_intCast, round_intCast]
  have h : ¬ (2 * (n : ℚ) = 2 * (n : ℚ) + 1) := by
    intro h
    linarith
  simp [h]

theorem sum_map_dedup_eq_toFinset_sum (l : List String) (f : String → ℕ) :
    ((l.dedup).map f).sum = ∑ p ∈ l.toFinset, f p := by
  induction l with
  | nil => simp
  | cons a t ih =>
    by_cases ha : a ∈ t
    · rw [List.dedup_cons_of_mem ha, List.toFinset_cons,
        Finset.insert_eq_self.mpr (List.mem_toFinset.mpr ha)]
      exact ih
    · rw [List.dedup_cons_of_not_mem ha, List.toFinset_cons, List.map_cons,
        List.sum_cons, Finset.sum_insert (fun hc => ha (List.mem_toFinset.mp hc)),
        ih]

/-- C7: the flat engine's `totalRiskScore` is in `[0, 100]`, and the
compliance engine's `compliance_score` is in `[0, 100]` and equals
`round(100 * (1 - uniqueViolatedPolicyWeight/100))` floored at 0, where the
unique violated weight counts each violated policy's weight once. -/
theorem c7_score_bounds_and_compliance_formula
    (identities : List UnifiedIdentity) (identity : UnifiedIdentity) (now : ℚ) :
    (0 ≤ (calculateRiskScore identities identity now).totalRiskScore ∧
      (calculateRiskScore identities identity now).totalRiskScore ≤ 100) ∧
    (0 ≤ (checkIdentityCompliance identities identity now).complianceScore ∧
      (checkIdentityCompliance identities identity now).complianceScore ≤ 100) ∧
    (checkIdentityCompliance identities identity now).complianceScore =
      max 0 (pyRound ((100 : ℚ) *
        (1 - (specUniqueViolatedWeight
          ((checkIdentityCompliance identities identity now).violations) : ℚ)
          / 100))) := by
  refine ⟨⟨Nat.zero_le _, ?_⟩, ?_⟩
  · simp only [calculateRiskScore]
    exact Nat.min_le_right _ _
  · simp only [checkIdentityCompliance]
    rw [(by decide : (COMPLIANCE_POLICY_WEIGHTS.map (fun p => p.2)).sum = 100)]
    set vs : List Violation := _ with hvs
    set u : ℕ := (((vs.map (fun v => v.policy)).dedup).map policyWeight).sum with hu
    have hscore : pyRound ((1 - (u : ℚ) / ((100 : ℕ) : ℚ)) * 100) =
        ((100 - (u : ℤ)) : ℤ) := by
      have hcast : ((1 : ℚ) - (u : ℚ) / ((100 : ℕ) : ℚ)) * 100 =
          (((100 - (u : ℤ)) : ℤ) : ℚ) := by
        push_cast
        ring
      rw [hcast, pyRound_intCast]
    refine ⟨⟨le_max_left _ _, ?_⟩, ?_⟩
    · rw [hscore]
      refine max_le (by norm_num) ?_
      omega
    · rw [hscore]
      have hform2 : (100 : ℚ) * (1 - (specUniqueViolatedWeight vs : ℚ) / 100) =
          ((100 - (specUniqueViolatedWeight vs : ℤ) : ℤ) : ℚ) := by
        push_cast
        ring
      rw [hform2, pyRound_intCast]
      have huv : specUniqueViolatedWeight vs = u := by
        rw [specUniqueViolatedWeight, hu, sum_map_dedup_eq_toFinset_sum]
      rw [huv]

/-! ## C2 -/

theorem insertIfAbsent_nodup {α : Type} [DecidableEq α] {l : List α}
    (h : l.Nodup) (x : α) : (insertIfAbsent l x).Nodup := by
  unfold insertIfAbsent
  by_cases hx : x ∈ l
  · simpa [hx] using h
  · simp [hx, List.nodup_append, h]

theorem toFinset_insertIfAbsent {α : Type} [DecidableEq α] (l : List α)
    (x : α) : (insertIfAbsent l x).toFinset = insert x l.toFinset := by
  unfold insertIfAbsent
  by_cases hx : x ∈ l
  · simp [hx, Finset.insert_eq_self.mpr (List.mem_toFinset.mpr hx)]
  · simp [hx, Finset.insert_eq, Finset.union_comm]

theorem foldl_insertIfAbsent_spec {α : Type} [DecidableEq α] :
    ∀ (xs : List α) (ds : List α), ds.Nodup →
      ((xs.foldl insertIfAbsent ds).Nodup ∧
       (xs.foldl insertIfAbsent ds).toFinset = ds.toFinset ∪ xs.toFinset) := by
  intro xs
  induction xs with
  | nil => intro ds h; simp [h]
  | cons x t ih =>
    intro ds h
    have h1 := ih (insertIfAbsent ds x) (insertIfAbsent_nodup h x)
    refine ⟨h1.1, ?_⟩
    rw [List.foldl_cons, h1.2, toFinset_insertIfAbsent, List.toFinset_cons]
    ext a
    simp [or_comm, or_assoc, or_left_comm]

theorem length_foldl_insertIfAbsent {α : Type} [DecidableEq α] (xs : List α) :
    (xs.foldl insertIfAbsent ([] : List α)).length = xs.toFinset.card := by
  obtain ⟨h1, h2⟩ := foldl_insertIfAbsent_spec xs [] List.nodup_nil
  rw [← List.toFinset_card_of_nodup h1, h2]
  simp

theorem blastFold_spec (g : IdentityGraph) :
    ∀ (l : List ConnEntry) (s : ℚ) (ds : List (Option String)) (a : ℕ),
      l.foldl (fun acc c =>
          (acc.1 + 1 / ((c.depth : ℚ) + 1),
           insertIfAbsent acc.2.1 c.src,
           if adminAtNode g c.id then acc.2.2 + 1 else acc.2.2)) (s, ds, a) =
        (s + (l.map (fun c => 1 / ((c.depth : ℚ) + 1))).sum,
         (l.map (fun c => c.src)).foldl insertIfAbsent ds,
         a + l.countP (fun c => adminAtNode g c.id)) := by
  intro l
  induction l with
  | nil => intro s ds a; simp
  | cons c t ih =>
    intro s ds a
    rw [List.foldl_cons, ih]
    refine Prod.ext ?_ (Prod.ext ?_ ?_)
    · simp [add_assoc]
    · simp
    · simp only [List.countP_cons]
      by_cases hadm : adminAtNode g c.id
      · simp [hadm, Nat.add_comm, Nat.add_assoc, Nat.add_left_comm]
      · simp [hadm]

/-- C2 counterexample: on the two-identity graph `cexGraph2`, the code's
`calculate_blast_radius("a")` yields 5 (truncation of `5.75`), while the
claim's `min(round(raw*10), 100)` yields 6. -/
theorem c2_blast_radius_round_counterexample :
    (calculateBlastRadius cexGraph2 "a").blastRadius ≠
      min (pyRound (specRawBlast cexGraph2 "a" * 10)) 100 := by
  have hconn : getConnectedIdentities cexGraph2 "a" 3 =
      [⟨"b", "x@y", some "azure", 1, "cross_provider", 0⟩] := by decide
  have hfind : alFind cexGraph2.nodes "a" = some cex2A := by decide
  have hadm : adminAtNode cexGraph2 "b" = false := by decide
  have hlhs : (calculateBlastRadius cexGraph2 "a").blastRadius = 5 := by
    simp only [calculateBlastRadius, hconn, hfind, blastFold, List.foldl_cons,
      List.foldl_nil, hadm, if_false, Bool.false_eq_true, insertIfAbsent,
      List.not_mem_nil, if_neg, List.nil_append, List.length_cons,
      List.length_nil, List.length_singleton]
    norm_num
  have hrhs : specRawBlast cexGraph2 "a" = 23/40 := by
    simp only [specRawBlast, hconn, List.map_cons, List.map_nil,
      List.sum_cons, List.sum_nil, List.countP_cons, List.countP_nil, hadm]
    norm_num
  rw [hlhs, hrhs]
  have hpr : pyRound ((23 : ℚ)/40 * 10) = 6 := by
    have h1 : ((23 : ℚ)/40 * 10) = 23/4 := by norm_num
    rw [h1]
    unfold pyRound
    have h2 : ⌊(23/4 : ℚ)⌋ = 5 := by norm_num
    rw [h2]
    have h3 : ¬ (2 * ((23:ℚ)/4) = 2 * ((5 : ℤ) : ℚ) + 1) := by norm_num
    simp only [h3, if_false]
    norm_num [round_eq]
  rw [hpr]
  norm_num

/-- C2 (amended): `calculate_blast_radius` returns exactly
`min(int(raw*10), 100)` — truncation (floor, since `raw ≥ 0`), not rounding —
with `raw` as the claim states it: the depth-weighted sum over the reached
identities times the admin and distinct-source multipliers. -/
theorem c2_blast_radius_truncation (g : IdentityGraph) (identityId : String)
    (h : (alFind g.nodes identityId).isSome) :
    (calculateBlastRadius g identityId).blastRadius =
      min ⌊specRawBlast g identityId * 10⌋ 100 := by
  obtain ⟨node, hn⟩ := Option.isSome_iff_exists.mp h
  simp only [calculateBlastRadius, specRawBlast, hn, blastFold, blastFold_spec]
  rw [length_foldl_insertIfAbsent]
  norm_num

/-- C2 witness: the amended statement evaluated on the concrete two-identity
graph. -/
theorem c2_blast_radius_truncation_witness :
    (alFind cexGraph2.nodes "a").isSome ∧
    (calculateBlastRadius cexGraph2 "a").blastRadius =
      min ⌊specRawBlast cexGraph2 "a" * 10⌋ 100 :=
  ⟨by decide, c2_blast_radius_truncation cexGraph2 "a" (by decide)⟩

/-! ## C8 -/

theorem mem_stableInsert {α : Type} (le : α → α → Bool) (x a : α) :
    ∀ (l : List α), a ∈ stableInsert le x l ↔ a = x ∨ a ∈ l := by
  intro l
  induction l with
  | nil => simp [stableInsert]
  | cons y t ih =>
    unfold stableInsert
    by_cases hc : le x y ∧ ¬ le y x = true
    · simp [hc]
    · simp only [if_neg hc, List.mem_cons, ih]
      tauto

theorem mem_stableSort {α : Type} (le : α → α → Bool) (a : α) (l : List α) :
    a ∈ stableSort le l ↔ a ∈ l := by
  suffices h : ∀ (l acc : List α), a ∈ l.foldl (fun acc x => stableInsert le x acc) acc ↔
      a ∈ l ∨ a ∈ acc by
    simpa using h l []
  intro l
  induction l with
  | nil => simp
  | cons x t ih =>
    intro acc
    rw [List.foldl_cons, ih, mem_stableInsert]
    simp only [List.mem_cons]
    tauto

theorem two_le_countP {α : Type} (p : α → Bool) (a b : α) :
    ∀ (l : List α), a ∈ l → b ∈ l → a ≠ b → p a = true → p b = true →
      2 ≤ l.countP p := by
  intro l
  induction l with
  | nil => intro h; simp at h
  | cons x t ih =>
    intro ha hb hne hpa hpb
    rcases List.mem_cons.mp ha with hax | hax
    · rcases List.mem_cons.mp hb with hbx | hbx
      · exact absurd (hax.trans hbx.symm) hne
      · have h1 : 1 ≤ t.countP p := by
          rw [List.one_le_countP_iff]
          exact ⟨b, hbx, hpb⟩
        rw [List.countP_cons, ← hax, hpa, if_pos rfl]
        omega
    · rcases List.mem_cons.mp hb with hbx | hbx
      · have h1 : 1 ≤ t.countP p := by
          rw [List.one_le_countP_iff]
          exact ⟨a, hax, hpa⟩
        rw [List.countP_cons, ← hbx, hpb, if_pos rfl]
        omega
      · have h2 := ih hax hbx hne hpa hpb
        rw [List.countP_cons]
        omega

theorem pyLower_eq_empty_iff (s : String) : pyLower s = "" ↔ s = "" := by
  have h1 : (pyLower s).data = s.data.map Char.toLower := rfl
  have h2 : ("" : String).data = [] := rfl
  rw [String.ext_iff, String.ext_iff, h1, h2, List.map_eq_nil_iff]

/-- The cross-cloud-admin condition of step 7 of `generate_for_identity`. -/
theorem restrict_cross_cloud_of_count (identities : List UnifiedIdentity)
    (identity : UnifiedIdentity) (now : ℚ)
    (hcount : identities.countP (fun i =>
      i.email ≠ "" ∧ identity.email ≠ "" ∧
      pyLower i.email = pyLower identity.email ∧
      (i.source = .aws ∨ i.source = .azure ∨ i.source = .gcp) ∧
      i.roles.any adminRole) > 1) :
    ∃ act ∈ generateForIdentity identities identity now,
      act.title = "Restrict Cross-Cloud Admin Access" ∧
      act.priorityLevel = "high" := by
  unfold generateForIdentity
  simp only
  rw [if_pos hcount]
  refine ⟨_, (mem_stableSort _ _ _).mpr
    (List.mem_append_right _ (List.mem_singleton_self _)), ?_, ?_⟩ <;> rfl

/-- C8 counterexample: two identities with the *same empty email*, one AWS
`AdministratorAccess` admin and one Azure `Global Administrator` admin —
the engine emits no action at all for either (the email guard
`if i.email and identity.email` rejects empty emails), in particular no
`restrict_cross_cloud` action. -/
theorem c8_restrict_cross_cloud_counterexample :
    generateForIdentity [cex8A, cex8B] cex8A 0 = [] ∧
    generateForIdentity [cex8A, cex8B] cex8B 0 = [] := by
  constructor <;> decide

/-- C8 (amended): for every snapshot containing two identities with the same
*non-empty* email (case-insensitive), one AWS with role `AdministratorAccess`
and one Azure with role `Global Administrator`, `generate_for_identity` emits
a `restrict_cross_cloud` action (`"Restrict Cross-Cloud Admin Access"`) with
priority level `"high"` for each of the two. -/
theorem c8_restrict_cross_cloud_emitted (identities : List UnifiedIdentity)
    (a b : UnifiedIdentity) (now : ℚ)
    (ha : a ∈ identities) (hb : b ∈ identities)
    (hemail : pyLower a.email = pyLower b.email) (hne : a.email ≠ "")
    (hasrc : a.source = .aws) (haadmin : "AdministratorAccess" ∈ a.roles)
    (hbsrc : b.source = .azure) (hbadmin : "Global Administrator" ∈ b.roles) :
    (∃ act ∈ generateForIdentity identities a now,
       act.title = "Restrict Cross-Cloud Admin Access" ∧
       act.priorityLevel = "high") ∧
    (∃ act ∈ generateForIdentity identities b now,
       act.title = "Restrict Cross-Cloud Admin Access" ∧
       act.priorityLevel = "high") := by
  have hbne : b.email ≠ "" := by
    intro hb0
    apply hne
    rw [← pyLower_eq_empty_iff]
    rw [hemail, hb0]
    rfl
  have hadmA : a.roles.any adminRole = true :=
    List.any_eq_true.mpr ⟨_, haadmin, by decide⟩
  have hadmB : b.roles.any adminRole = true :=
    List.any_eq_true.mpr ⟨_, hbadmin, by decide⟩
  have hab : a ≠ b := by
    intro h
    rw [h, hbsrc] at hasrc
    cases hasrc
  constructor
  · refine restrict_cross_cloud_of_count identities a now ?_
    refine lt_of_lt_of_le one_lt_two
      (two_le_countP _ a b identities ha hb hab ?_ ?_)
    · simp only [decide_eq_true_eq]
      exact ⟨hne, hne, by trivial, Or.inl hasrc, hadmA⟩
    · simp only [decide_eq_true_eq]
      exact ⟨hbne, hne, hemail.symm, Or.inr (Or.inl hbsrc), hadmB⟩
  · refine restrict_cross_cloud_of_count identities b now ?_
    refine lt_of_lt_of_le one_lt_two
      (two_le_countP _ a b identities ha hb hab ?_ ?_)
    · simp only [decide_eq_true_eq]
      exact ⟨hne, hbne, hemail, Or.inl hasrc, hadmA⟩
    · simp only [decide_eq_true_eq]
      exact ⟨hbne, hbne, by trivial, Or.inr (Or.inl hbsrc), hadmB⟩

/-- C8 witness: the spec's scenario 3 (`bob@co` on AWS and Azure). -/
theorem c8_restrict_cross_cloud_emitted_witness :
    (wit8A ∈ [wit8A, wit8B] ∧ wit8B ∈ [wit8A, wit8B] ∧
     pyLower wit8A.email = pyLower wit8B.email ∧ wit8A.email ≠ "" ∧
     wit8A.source = .aws ∧ "AdministratorAccess" ∈ wit8A.roles ∧
     wit8B.source = .azure ∧ "Global Administrator" ∈ wit8B.roles) ∧
    (∃ act ∈ generateForIdentity [wit8A, wit8B] wit8A 0,
       act.title = "Restrict Cross-Cloud Admin Access" ∧
       act.priorityLevel = "high") ∧
    (∃ act ∈ generateForIdentity [wit8A, wit8B] wit8B 0,
       act.title = "Restrict Cross-Cloud Admin Access" ∧
       act.priorityLevel = "high") :=
  ⟨by decide,
   c8_restrict_cross_cloud_emitted [wit8A, wit8B] wit8A wit8B 0
     (by decide) (by decide) (by decide) (by decide) (by decide) (by decide)
     (by decide) (by decide)⟩

/-! ## C3 -/

theorem mem_keys_alSet {β : Type} (m : List (String × β)) (k x : String)
    (v : β) :
    x ∈ (alSet m k v).map Prod.fst ↔ x = k ∨ x ∈ m.map Prod.fst := by
  induction m with
  | nil => simp [alSet]
  | cons p rest ih =>
    obtain ⟨k', v'⟩ := p
    unfold alSet
    by_cases hp : k' = k
    · subst hp
      rw [if_pos rfl]
      simp only [List.map_cons, List.mem_cons]
      tauto
    · simp only [if_neg hp, List.map_cons, List.mem_cons, ih]
      tauto

theorem keys_nodup_alSet {β : Type} (m : List (String × β)) (k : String)
    (v : β) (h : (m.map Prod.fst).Nodup) :
    ((alSet m k v).map Prod.fst).Nodup := by
  induction m with
  | nil => simp [alSet]
  | cons p rest ih =>
    obtain ⟨k', v'⟩ := p
    rw [List.map_cons, List.nodup_cons] at h
    unfold alSet
    by_cases hp : k' = k
    · subst hp
      rw [if_pos rfl]
      simp only [List.map_cons, List.nodup_cons]
      exact ⟨h.1, h.2⟩
    · simp only [if_neg hp, List.map_cons, List.nodup_cons]
      refine ⟨?_, ih h.2⟩
      rw [mem_keys_alSet]
      rintro (hc | hc)
      · exact hp hc
      · exact h.1 hc

theorem buildNodes_keys_nodup (identities : List UnifiedIdentity) :
    ((buildNodes identities).map Prod.fst).Nodup := by
  unfold buildNodes
  exact foldl_preserves (fun m => (m.map Prod.fst).Nodup)
    (fun m i => alSet m i.id i) (fun m i hm => keys_nodup_alSet m i.id i hm)
    identities [] List.nodup_nil

theorem alFind_eq_of_mem_keysNodup {β : Type} {m : List (String × β)}
    {k : String} {v : β} (hm : (k, v) ∈ m)
    (hnd : (m.map Prod.fst).Nodup) : alFind m k = some v := by
  induction m with
  | nil => cases hm
  | cons p rest ih =>
    rw [List.map_cons, List.nodup_cons] at hnd
    rcases List.mem_cons.mp hm with h | h
    · rw [← h]
      simp [alFind, List.find?]
    · have hk : ¬ (p.1 = k) := by
        intro he
        exact hnd.1 (he ▸ List.mem_map.mpr ⟨(k, v), h, rfl⟩)
      simp only [alFind, List.find?, decide_eq_false hk, Bool.false_eq_true,
        if_false] at ih ⊢
      exact ih h hnd.2

theorem mem_adminIds_iff (g : IdentityGraph)
    (hnd : (g.nodes.map Prod.fst).Nodup) (x : String) :
    x ∈ adminIds g ↔ adminAtNode g x = true := by
  constructor
  · intro hx
    simp only [adminIds, List.mem_map, List.mem_filter] at hx
    obtain ⟨p, ⟨hp, hpadm⟩, hpx⟩ := hx
    have hpm : (x, p.2) ∈ g.nodes := by
      rw [← hpx]
      exact hp
    have hfind : alFind g.nodes x = some p.2 :=
      alFind_eq_of_mem_keysNodup hpm hnd
    simp [adminAtNode, hfind, hpadm]
  · intro hx
    simp only [adminAtNode] at hx
    cases hfind : alFind g.nodes x with
    | none => rw [hfind] at hx; cases hx
    | some n =>
      rw [hfind] at hx
      exact List.mem_map.mpr ⟨(x, n), List.mem_filter.mpr ⟨alFind_mem hfind, hx⟩, rfl⟩

theorem dfs_complete (g : IdentityGraph) (targets : List String)
    (maxDepth : Nat) :
    ∀ (suffix : List Hop) (current : String) (path : List Hop)
      (visited : List String) (fuel : Nat),
      goodSuffix g targets current suffix →
      path.length + suffix.length ≤ maxDepth →
      suffix.length ≤ fuel →
      (suffix = [] → path.length > 0) →
      (∀ h ∈ suffix, h.id ∉ current :: visited) →
      ((suffix.map (fun h => h.id)).Nodup) →
      path ++ suffix ∈ dfsPaths g targets maxDepth fuel current path visited := by
  intro suffix
  induction suffix with
  | nil =>
    intro current path visited fuel hgood hlen hfuel hpos hfresh hnd
    simp only [goodSuffix] at hgood
    unfold dfsPaths
    rw [if_neg (by simp at hlen; omega : ¬ path.length > maxDepth)]
    rw [if_pos ⟨hgood, hpos rfl⟩]
    simp
  | cons h rest ih =>
    intro current path visited fuel hgood hlen hfuel hpos hfresh hnd
    obtain ⟨hcurnt, hadj, ⟨n, hn, hemail⟩, hgood'⟩ := hgood
    cases fuel with
    | zero => simp at hfuel
    | succ f =>
      unfold dfsPaths
      rw [if_neg (show ¬ path.length > maxDepth by simp at hlen; omega)]
      rw [if_neg (show ¬ (current ∈ targets ∧ path.length > 0) from
        fun hc => hcurnt hc.1)]
      rw [List.mem_flatten]
      refine ⟨_, List.mem_map.mpr ⟨⟨h.id, h.relationship, h.weight⟩, hadj, rfl⟩, ?_⟩
      have hfr : h.id ∉ current :: visited := hfresh h (List.mem_cons_self h rest)
      simp only
      rw [if_pos hfr, hn]
      dsimp only
      have hh : (⟨h.id, n.email, h.relationship, h.weight⟩ : Hop) = h := by
        cases h
        simp only at hemail ⊢
        rw [hemail]
      rw [hh]
      rw [show path ++ h :: rest = (path ++ [h]) ++ rest by simp]
      rw [List.map_cons, List.nodup_cons] at hnd
      refine ih h.id (path ++ [h]) (current :: visited) f hgood' ?_ ?_ ?_ ?_ hnd.2
      · simp at hlen ⊢
        omega
      · simp at hfuel ⊢
        omega
      · intro
        simp
      · intro x hx hmem
        rcases List.mem_cons.mp hmem with hc | hc
        · exact hnd.1 (hc ▸ List.mem_map.mpr ⟨x, hx, rfl⟩)
        · exact hfresh x (List.mem_cons_of_mem h hx) hc

theorem goodSuffix_of_amended (g : IdentityGraph)
    (hnd : (g.nodes.map Prod.fst).Nodup) :
    ∀ (hops : List Hop) (current : String),
      hopChain g current hops = true →
      (hops = [] → adminAtNode g current = true) →
      (hops ≠ [] → adminAtNode g current = false) →
      (∀ h ∈ hops.dropLast, adminAtNode g h.id = false) →
      (hops ≠ [] → adminAtNode g ((hops.map (fun h => h.id)).getLastD "") = true) →
      goodSuffix g (adminIds g) current hops := by
  intro hops
  induction hops with
  | nil =>
    intro current _ hnil _ _ _
    simp only [goodSuffix]
    exact (mem_adminIds_iff g hnd current).mpr (hnil rfl)
  | cons h rest ih =>
    intro current hchain hnil hcons hmid hlast
    simp only [hopChain, Bool.and_eq_true, decide_eq_true_eq] at hchain
    obtain ⟨⟨hadj, hmt⟩, hchain'⟩ := hchain
    have hex : ∃ n, alFind g.nodes h.id = some n ∧ h.email = n.email := by
      cases hfind : alFind g.nodes h.id with
      | none => rw [hfind] at hmt; cases hmt
      | some n =>
        rw [hfind] at hmt
        exact ⟨n, rfl, by simpa using hmt⟩
    have hcurrent : current ∉ adminIds g := by
      rw [mem_adminIds_iff g hnd]
      simp [hcons (by simp)]
    refine ⟨hcurrent, hadj, hex, ?_⟩
    by_cases hrest : rest = []
    · subst hrest
      refine ih h.id hchain' (fun _ => ?_) (by simp) (by simp) (by simp)
      have := hlast (by simp)
      simpa using this
    · refine ih h.id hchain' (fun hc => absurd hc hrest) (fun _ => ?_) ?_ ?_
      · refine hmid h ?_
        rw [show (h :: rest).dropLast = h :: rest.dropLast from
          List.dropLast_cons_of_ne_nil hrest]
        exact List.mem_cons_self _ _
      · intro x hx
        refine hmid x ?_
        rw [show (h :: rest).dropLast = h :: rest.dropLast from
          List.dropLast_cons_of_ne_nil hrest]
        exact List.mem_cons_of_mem h hx
      · intro _
        have := hlast (by simp)
        rw [List.map_cons] at this
        rwa [List.getLastD_cons, show (rest.map (fun h => h.id)).getLastD h.id =
          (rest.map (fun h => h.id)).getLastD "" from ?_] at this
        rw [List.getLastD_eq_getLast?, List.getLastD_eq_getLast?]
        cases hq : (rest.map (fun h => h.id)).getLast? with
        | none =>
          rw [List.getLast?_eq_none_iff] at hq
          simp at hq
          exact absurd hq hrest
        | some y => simp

/-- C3 counterexample: in `cexGraph3` the adjacency structure contains the
simple 2-edge path `a → vgroup:g → b` ending at the admin node `b`, the start
`a` is not an admin, yet `find_admin_takeover_paths("a")` returns no path at
all — the DFS does not traverse virtual nodes. -/
theorem c3_admin_paths_counterexample :
    claimAdminPath cexGraph3 "a"
      [("vgroup:g", "member_of", Rat.divInt 1 2),
       ("b", "member_of", Rat.divInt 1 2)] = true ∧
    adminAtNode cexGraph3 "a" = false ∧
    findAdminTakeoverPaths cexGraph3 "a" = [] := by
  refine ⟨by decide, by decide, by decide⟩

/-- C3 (amended): for a non-admin start identity, `find_admin_takeover_paths`
returns every simple path of at most 4 edges that runs through *identity*
nodes (the DFS skips `vgroup:`/`vrole:` virtual nodes), from the start to a
node with an admin-substring role, with no intermediate admin node — each
path an ordered sequence of `{id, email, relationship, weight}` hops. -/
theorem c3_admin_paths_completeness (identities : List UnifiedIdentity)
    (startId : String) (n0 : UnifiedIdentity) (hops : List Hop)
    (hfind : alFind (mkIdentityGraph identities).nodes startId = some n0)
    (hnotadmin : n0.roles.any adminRole = false)
    (hamended : amendedAdminPath (mkIdentityGraph identities) startId hops = true) :
    hops ∈ findAdminTakeoverPaths (mkIdentityGraph identities) startId := by
  set g := mkIdentityGraph identities with hg
  have hndk : (g.nodes.map Prod.fst).Nodup := by
    rw [hg]
    exact buildNodes_keys_nodup identities
  have hadmstart : adminAtNode g startId = false := by
    simp [adminAtNode, hfind, hnotadmin]
  simp only [amendedAdminPath, Bool.and_eq_true, decide_eq_true_eq,
    Bool.not_eq_true', List.isEmpty_eq_false, List.all_eq_true,
    Bool.not_eq_true] at hamended
  obtain ⟨⟨⟨⟨⟨hne, hlen⟩, hchain⟩, hndp⟩, hlast⟩, hmid⟩ := hamended
  have hgood : goodSuffix g (adminIds g) startId hops := by
    refine goodSuffix_of_amended g hndk hops startId hchain
      (fun hc => absurd hc hne) (fun _ => hadmstart) ?_ (fun _ => hlast)
    intro x hx
    simpa using hmid x hx
  have hstart_not : startId ∉ adminIds g := by
    rw [mem_adminIds_iff g hndk]
    simp [hadmstart]
  rw [List.nodup_cons] at hndp
  have hpath : ([] : List Hop) ++ hops ∈ dfsPaths g (adminIds g) 4 5 startId [] [] := by
    refine dfs_complete g (adminIds g) 4 hops startId [] [] 5 hgood
      (by simpa using hlen) (by omega) (fun hc => absurd hc hne) ?_ hndp.2
    intro x hx hmem
    rcases List.mem_cons.mp hmem with hc | hc
    · exact hndp.1 (hc ▸ List.mem_map.mpr ⟨x, hx, rfl⟩)
    · cases hc
  rw [List.nil_append] at hpath
  unfold findAdminTakeoverPaths
  rw [hfind, if_neg hstart_not]
  exact hpath

/-- C3 witness: the amended path predicate and the DFS on the linked-account
witness graph. -/
theorem c3_admin_paths_completeness_witness :
    alFind witGraph3.nodes "s" = some wit3S ∧
    wit3S.roles.any adminRole = false ∧
    amendedAdminPath witGraph3 "s"
      [⟨"t", "t@x", "linked_account", Rat.divInt 9 10⟩] = true ∧
    [(⟨"t", "t@x", "linked_account", Rat.divInt 9 10⟩ : Hop)] ∈
      findAdminTakeoverPaths witGraph3 "s" :=
  ⟨by decide, by decide, by decide,
   c3_admin_paths_completeness [wit3S, wit3T] "s" wit3S
     [⟨"t", "t@x", "linked_account", Rat.divInt 9 10⟩]
     (by decide) (by decide) (by decide)⟩

/-! ## C4 -/

theorem bfsScan_spec (depth : Nat) (via : String) :
    ∀ (l : List AdjEntry) (q : List (String × Nat × String))
      (vis : List String),
      ∃ adds : List (String × Nat × String),
        (l.foldl (bfsScanStep depth via) (q, vis)).1 = q ++ adds ∧
        (l.foldl (bfsScanStep depth via) (q, vis)).2 =
          vis ++ adds.map (fun e => e.1) ∧
        (adds.map (fun e => e.1)).Nodup ∧
        (∀ e ∈ adds, e.1 ∈ l.map AdjEntry.target ∧ e.1 ∉ vis ∧
          e.2.1 = (if isVirtual e.1 then depth else depth + 1)) := by
  intro l
  induction l with
  | nil =>
    intro q vis
    exact ⟨[], by simp, by simp, by simp, by simp⟩
  | cons e t ih =>
    intro q vis
    rw [List.foldl_cons]
    by_cases hv : e.target ∈ vis
    · have hstep : bfsScanStep depth via (q, vis) e = (q, vis) := by
        unfold bfsScanStep
        rw [if_pos hv]
      rw [hstep]
      obtain ⟨adds, h1, h2, h3, h4⟩ := ih q vis
      exact ⟨adds, h1, h2, h3, fun a ha =>
        ⟨List.mem_cons_of_mem _ (h4 a ha).1, (h4 a ha).2.1, (h4 a ha).2.2⟩⟩
    · by_cases hvt : isVirtual e.target
      · have hstep : bfsScanStep depth via (q, vis) e =
            (q ++ [(e.target, depth, via)], vis ++ [e.target]) := by
          unfold bfsScanStep
          rw [if_neg hv, if_pos hvt]
        rw [hstep]
        obtain ⟨adds, h1, h2, h3, h4⟩ := ih (q ++ [(e.target, depth, via)])
          (vis ++ [e.target])
        refine ⟨(e.target, depth, via) :: adds, ?_, ?_, ?_, ?_⟩
        · rw [h1]
          simp
        · rw [h2]
          simp
        · rw [List.map_cons, List.nodup_cons]
          refine ⟨fun hc => ?_, h3⟩
          obtain ⟨a, ha, hae⟩ := List.mem_map.mp hc
          exact (h4 a ha).2.1 (by rw [hae]; simp)
        · intro a ha
          rcases List.mem_cons.mp ha with hae | hat
          · subst hae
            exact ⟨List.mem_cons_self _ _, hv, by simp [hvt]⟩
          · refine ⟨List.mem_cons_of_mem _ (h4 a hat).1, fun hc => ?_,
              (h4 a hat).2.2⟩
            exact (h4 a hat).2.1 (List.mem_append_left _ hc)
      · have hstep : bfsScanStep depth via (q, vis) e =
            (q ++ [(e.target, depth + 1, e.rel)], vis ++ [e.target]) := by
          unfold bfsScanStep
          rw [if_neg hv, if_neg hvt]
        rw [hstep]
        obtain ⟨adds, h1, h2, h3, h4⟩ := ih (q ++ [(e.target, depth + 1, e.rel)])
          (vis ++ [e.target])
        refine ⟨(e.target, depth + 1, e.rel) :: adds, ?_, ?_, ?_, ?_⟩
        · rw [h1]
          simp
        · rw [h2]
          simp
        · rw [List.map_cons, List.nodup_cons]
          refine ⟨fun hc => ?_, h3⟩
          obtain ⟨a, ha, hae⟩ := List.mem_map.mp hc
          exact (h4 a ha).2.1 (by rw [hae]; simp)
        · intro a ha
          rcases List.mem_cons.mp ha with hae | hat
          · subst hae
            exact ⟨List.mem_cons_self _ _, hv, by simp [hvt]⟩
          · refine ⟨List.mem_cons_of_mem _ (h4 a hat).1, fun hc => ?_,
              (h4 a hat).2.2⟩
            exact (h4 a hat).2.1 (List.mem_append_left _ hc)

theorem bfsScan_covers (depth : Nat) (via : String) :
    ∀ (l : List AdjEntry) (q : List (String × Nat × String))
      (vis : List String) (x : String),
      x ∈ l.map AdjEntry.target →
      x ∈ (l.foldl (bfsScanStep depth via) (q, vis)).2 := by
  intro l
  induction l with
  | nil => intro q vis x hx; cases hx
  | cons e t ih =>
    intro q vis x hx
    rw [List.foldl_cons]
    rcases List.mem_cons.mp hx with hxe | hxt
    · have hmem2 : e.target ∈ (bfsScanStep depth via (q, vis) e).2 := by
        unfold bfsScanStep
        by_cases hv : e.target ∈ vis
        · rw [if_pos hv]
          exact hv
        · rw [if_neg hv]
          by_cases hvt : isVirtual e.target
          · rw [if_pos hvt]
            simp
          · rw [if_neg hvt]
            simp
      obtain ⟨adds, _, h2, _, _⟩ := bfsScan_spec depth via t
        (bfsScanStep depth via (q, vis) e).1 (bfsScanStep depth via (q, vis) e).2
      rw [hxe, h2]
      exact List.mem_append_left _ hmem2
    · exact ih _ _ x hxt

theorem mem_allTargets_of_mem_alGet (adj : List (String × List AdjEntry))
    (c x : String) (hx : x ∈ (alGet adj c).map AdjEntry.target) :
    x ∈ allTargets adj := by
  unfold allTargets
  rw [List.mem_flatten]
  cases hf : alFind adj c with
  | none =>
    have hget : alGet adj c = [] := by
      unfold alGet
      rw [hf]
    rw [hget] at hx
    cases hx
  | some bucket =>
    have hget : alGet adj c = bucket := by
      unfold alGet
      rw [hf]
    rw [hget] at hx
    exact ⟨bucket.map AdjEntry.target,
      List.mem_map.mpr ⟨(c, bucket), alFind_mem hf, rfl⟩, hx⟩

theorem card_sdiff_append (U : Finset String) (vis ids : List String)
    (hnd : ids.Nodup) (hfresh : ∀ x ∈ ids, x ∉ vis)
    (hsub : ∀ x ∈ ids, x ∈ U) :
    (U \ (vis ++ ids).toFinset).card + ids.length = (U \ vis.toFinset).card := by
  rw [List.toFinset_append]
  have hI : ids.toFinset ⊆ U \ vis.toFinset := by
    intro x hx
    rw [Finset.mem_sdiff]
    have hxl := List.mem_toFinset.mp hx
    exact ⟨hsub x hxl, fun hc => hfresh x hxl (List.mem_toFinset.mp hc)⟩
  have h1 : U \ (vis.toFinset ∪ ids.toFinset) =
      (U \ vis.toFinset) \ ids.toFinset := by
    ext a
    simp only [Finset.mem_sdiff, Finset.mem_union]
    tauto
  rw [h1, Finset.card_sdiff hI, List.toFinset_card_of_nodup hnd]
  refine Nat.sub_add_cancel ?_
  rw [← List.toFinset_card_of_nodup hnd]
  exact Finset.card_le_card hI

theorem bfsLoop_cons (g : IdentityGraph) (maxDepth fuel : Nat) (c : String)
    (d : Nat) (via : String) (rest : List (String × Nat × String))
    (visited : List String) (result : List ConnEntry) :
    bfsLoop g maxDepth (fuel + 1) ((c, d, via) :: rest) visited result =
      if d < maxDepth then
        bfsLoop g maxDepth fuel
          ((alGet g.adjacency c).foldl (bfsScanStep d via) (rest, visited)).1
          ((alGet g.adjacency c).foldl (bfsScanStep d via) (rest, visited)).2
          (if d > 0 then
            match alFind g.nodes c with
            | some node =>
              result ++ [⟨c, node.email, displaySource node, d, via,
                          node.riskScore⟩]
            | none => result
          else result)
      else
        bfsLoop g maxDepth fuel rest visited
          (if d > 0 then
            match alFind g.nodes c with
            | some node =>
              result ++ [⟨c, node.email, displaySource node, d, via,
                          node.riskScore⟩]
            | none => result
          else result) := rfl

theorem mem_resultStep (g : IdentityGraph) (c : String) (d : Nat)
    (via : String) (result : List ConnEntry) (e : ConnEntry)
    (he : e ∈ result) :
    e ∈ (if d > 0 then
          match alFind g.nodes c with
          | some node =>
            result ++ [⟨c, node.email, displaySource node, d, via,
                        node.riskScore⟩]
          | none => result
        else result) := by
  by_cases hd : d > 0
  · rw [if_pos hd]
    cases hf : alFind g.nodes c with
    | none => simp only [hf]; exact he
    | some node => simp only [hf]; exact List.mem_append_left _ he
  · rw [if_neg hd]
    exact he

theorem bfsLoop_result_nodes (g : IdentityGraph) (maxDepth : Nat) :
    ∀ (fuel : Nat) (queue : List (String × Nat × String))
      (visited : List String) (result : List ConnEntry),
      (∀ e ∈ result, (alFind g.nodes e.id).isSome) →
      ∀ e ∈ bfsLoop g maxDepth fuel queue visited result,
        (alFind g.nodes e.id).isSome := by
  intro fuel
  induction fuel with
  | zero => intro q v r hr e he; exact hr e he
  | succ f ih =>
    intro q v r hr e he
    cases q with
    | nil => exact hr e he
    | cons head rest =>
      obtain ⟨c, d, via⟩ := head
      rw [bfsLoop_cons] at he
      have hr' : ∀ e ∈ (if d > 0 then
          match alFind g.nodes c with
          | some node =>
            r ++ [⟨c, node.email, displaySource node, d, via, node.riskScore⟩]
          | none => r
        else r), (alFind g.nodes e.id).isSome := by
        by_cases hd0 : d > 0
        · rw [if_pos hd0]
          cases hf : alFind g.nodes c with
          | none => simpa only [hf] using hr
          | some node =>
            simp only [hf]
            intro a ha
            rcases List.mem_append.mp ha with h | h
            · exact hr a h
            · have ha2 : a = ⟨c, node.email, displaySource node, d, via,
                  node.riskScore⟩ := List.mem_singleton.mp h
              rw [ha2]
              simp [hf]
        · rw [if_neg hd0]
          exact hr
      by_cases hd : d < maxDepth
      · rw [if_pos hd] at he
        exact ih _ _ _ hr' e he
      · rw [if_neg hd] at he
        exact ih _ _ _ hr' e he

theorem bfs_reaches (g : IdentityGraph) (Bid vg : String)
    (nB : UnifiedIdentity) (hBv : isVirtual Bid = false)
    (hBnode : alFind g.nodes Bid = some nB)
    (hBadj : Bid ∈ (alGet g.adjacency vg).map AdjEntry.target) :
    ∀ (fuel : Nat) (queue : List (String × Nat × String))
      (visited : List String) (result : List ConnEntry),
      bfsMeasure g queue visited ≤ fuel →
      ((∃ v, (vg, 0, v) ∈ queue ∧ Bid ∉ visited) ∨
       (∃ rel, (Bid, 1, rel) ∈ queue) ∨
       (∃ e ∈ result, e.id = Bid ∧ e.depth = 1)) →
      ∃ e ∈ bfsLoop g 1 fuel queue visited result,
        e.id = Bid ∧ e.depth = 1 := by
  intro fuel
  induction fuel with
  | zero =>
    intro queue visited result hm hinv
    have hq : queue = [] := by
      cases queue with
      | nil => rfl
      | cons a t =>
        unfold bfsMeasure at hm
        simp at hm
    subst hq
    rcases hinv with ⟨v, hv, _⟩ | ⟨rel, hrel⟩ | h3
    · cases hv
    · cases hrel
    · exact h3
  | succ f ih =>
    intro queue visited result hm hinv
    cases queue with
    | nil =>
      rcases hinv with ⟨v, hv, _⟩ | ⟨rel, hrel⟩ | h3
      · cases hv
      · cases hrel
      · exact h3
    | cons head rest =>
      obtain ⟨c, d, via⟩ := head
      rw [bfsLoop_cons]
      by_cases hd : d < 1
      · rw [if_pos hd]
        have hd0 : d = 0 := by omega
        subst hd0
        obtain ⟨adds, h1, h2, h3n, h4⟩ :=
          bfsScan_spec 0 via (alGet g.adjacency c) rest visited
        have haddsU : ∀ x ∈ adds.map (fun e => e.1),
            x ∈ (allTargets g.adjacency).toFinset := by
          intro x hx
          obtain ⟨a, ha, hax⟩ := List.mem_map.mp hx
          exact List.mem_toFinset.mpr (mem_allTargets_of_mem_alGet _ _ _
            (hax ▸ (h4 a ha).1))
        have haddsF : ∀ x ∈ adds.map (fun e => e.1), x ∉ visited := by
          intro x hx
          obtain ⟨a, ha, hax⟩ := List.mem_map.mp hx
          exact hax ▸ (h4 a ha).2.1
        have hcard := card_sdiff_append ((allTargets g.adjacency).toFinset)
          visited (adds.map (fun e => e.1)) h3n haddsF haddsU
        have hmeas : bfsMeasure g
            ((alGet g.adjacency c).foldl (bfsScanStep 0 via) (rest, visited)).1
            ((alGet g.adjacency c).foldl (bfsScanStep 0 via) (rest, visited)).2
            ≤ f := by
          rw [h1, h2]
          unfold bfsMeasure at hm ⊢
          rw [List.length_append]
          rw [List.length_map] at hcard
          simp only [List.length_cons] at hm
          omega
        have hres0 : (if 0 > 0 then
            match alFind g.nodes c with
            | some node =>
              result ++ [⟨c, node.email, displaySource node, 0, via,
                          node.riskScore⟩]
            | none => result
          else result) = result := by
          norm_num
        rw [hres0]
        rcases hinv with ⟨v, hvq, hBnv⟩ | ⟨rel, hrelq⟩ | hres
        · rcases List.mem_cons.mp hvq with hhead | hrest
          · have hcvg : vg = c := congrArg (fun p => p.1) hhead
            have hBin : Bid ∈
                ((alGet g.adjacency c).foldl (bfsScanStep 0 via)
                  (rest, visited)).2 := by
              refine bfsScan_covers 0 via _ rest visited Bid ?_
              rw [← hcvg]
              exact hBadj
            rw [h2] at hBin
            rcases List.mem_append.mp hBin with hc1 | hc2
            · exact absurd hc1 hBnv
            · obtain ⟨a, ha, hax⟩ := List.mem_map.mp hc2
              have h4a := h4 a ha
              have ha21 : a.2.1 = 1 := by
                rw [h4a.2.2, hax, hBv]
                simp
              have haB : a = (Bid, 1, a.2.2) := by
                rw [← hax, ← ha21]
              refine ih _ _ _ hmeas (Or.inr (Or.inl ⟨a.2.2, ?_⟩))
              rw [h1]
              exact List.mem_append_right _ (haB ▸ ha)
          · by_cases hBadd : Bid ∈ adds.map (fun e => e.1)
            · obtain ⟨a, ha, hax⟩ := List.mem_map.mp hBadd
              have h4a := h4 a ha
              have ha21 : a.2.1 = 1 := by
                rw [h4a.2.2, hax, hBv]
                simp
              have haB : a = (Bid, 1, a.2.2) := by
                rw [← hax, ← ha21]
              refine ih _ _ _ hmeas (Or.inr (Or.inl ⟨a.2.2, ?_⟩))
              rw [h1]
              exact List.mem_append_right _ (haB ▸ ha)
            · refine ih _ _ _ hmeas (Or.inl ⟨v, ?_, ?_⟩)
              · rw [h1]
                exact List.mem_append_left _ hrest
              · rw [h2]
                intro hc
                rcases List.mem_append.mp hc with hc1 | hc2
                · exact hBnv hc1
                · exact hBadd hc2
        · rcases List.mem_cons.mp hrelq with hhead | hrest
          · have : (1 : Nat) = 0 := congrArg (fun p => p.2.1) hhead
            cases this
          · refine ih _ _ _ hmeas (Or.inr (Or.inl ⟨rel, ?_⟩))
            rw [h1]
            exact List.mem_append_left _ hrest
        · obtain ⟨e, he, hP⟩ := hres
          exact ih _ _ _ hmeas (Or.inr (Or.inr ⟨e, he, hP⟩))
      · rw [if_neg hd]
        have hmeas : bfsMeasure g rest visited ≤ f := by
          unfold bfsMeasure at hm ⊢
          simp only [List.length_cons] at hm
          omega
        rcases hinv with ⟨v, hvq, hBnv⟩ | ⟨rel, hrelq⟩ | hres
        · rcases List.mem_cons.mp hvq with hhead | hrest
          · have : (0 : Nat) = d := congrArg (fun p => p.2.1) hhead
            omega
          · exact ih _ _ _ hmeas (Or.inl ⟨v, hrest, hBnv⟩)
        · rcases List.mem_cons.mp hrelq with hhead | hrest
          · have hcB : Bid = c := congrArg (fun p => p.1) hhead
            have hd1 : (1 : Nat) = d := congrArg (fun p => p.2.1) hhead
            have hvia : rel = via := congrArg (fun p => p.2.2) hhead
            refine ih _ _ _ hmeas (Or.inr (Or.inr ?_))
            refine ⟨⟨Bid, nB.email, displaySource nB, 1, via, nB.riskScore⟩,
              ?_, rfl, rfl⟩
            rw [← hcB, ← hd1]
            rw [if_pos (by omega : (1 : Nat) > 0)]
            simp only [hBnode]
            exact List.mem_append_right _ (List.mem_singleton_self _)
          · exact ih _ _ _ hmeas (Or.inr (Or.inl ⟨rel, hrest⟩))
        · obtain ⟨e, he, hP⟩ := hres
          exact ih _ _ _ hmeas (Or.inr (Or.inr
            ⟨e, mem_resultStep g c d via result e he, hP⟩))

theorem alGet_foldl_of_elem {α : Type}
    (f : List (String × List AdjEntry) → α → List (String × List AdjEntry))
    (x : String) (e : AdjEntry)
    (hf : ∀ b a, e ∈ alGet b x → e ∈ alGet (f b a) x) (a : α) :
    ∀ (l : List α), a ∈ l → (∀ b, e ∈ alGet (f b a) x) →
      ∀ b, e ∈ alGet (l.foldl f b) x := by
  intro l
  induction l with
  | nil => intro ha; cases ha
  | cons y t ih =>
    intro ha hadd b
    rw [List.foldl_cons]
    rcases List.mem_cons.mp ha with hay | hat
    · subst hay
      exact foldl_preserves (fun b => e ∈ alGet b x) f hf t (f b a) (hadd b)
    · exact ih hat hadd (f b y)

theorem mem_alGet_crossProviderStage (emailToIds : List (String × List String))
    {adj : List (String × List AdjEntry)} {x : String} {e : AdjEntry}
    (h : e ∈ alGet adj x) : e ∈ alGet (crossProviderStage emailToIds adj) x := by
  unfold crossProviderStage
  refine foldl_preserves (fun b => e ∈ alGet b x) _ (fun b bucket hb => ?_)
    emailToIds adj h
  by_cases hl : bucket.2.length > 1
  · simp only [if_pos hl]
    exact foldl_preserves (fun b => e ∈ alGet b x) _
      (fun b pr hb => mem_alGet_addEdge_of_mem _ _ _ _ hb) _ b hb
  · simpa [hl] using hb

theorem mem_alGet_linkedStage (nodes : List (String × UnifiedIdentity))
    (identities : List UnifiedIdentity)
    {adj : List (String × List AdjEntry)} {x : String} {e : AdjEntry}
    (h : e ∈ alGet adj x) : e ∈ alGet (linkedStage nodes identities adj) x := by
  unfold linkedStage
  refine foldl_preserves (fun b => e ∈ alGet b x) _ (fun b i hb => ?_)
    identities adj h
  refine foldl_preserves (fun b => e ∈ alGet b x) _ (fun b linked hb => ?_)
    i.linkedAccounts b hb
  by_cases hn : (alFind nodes linked).isSome
  · simpa [hn] using mem_alGet_addEdge_of_mem i.id linked "linked_account"
      (Rat.divInt 9 10) hb
  · simpa [hn] using hb

theorem mem_alGet_groupStage (identities : List UnifiedIdentity)
    {adj : List (String × List AdjEntry)} {x : String} {e : AdjEntry}
    (h : e ∈ alGet adj x) : e ∈ alGet (groupStage identities adj) x := by
  unfold groupStage
  refine foldl_preserves (fun b => e ∈ alGet b x) _ (fun b i hb => ?_)
    identities adj h
  exact foldl_preserves (fun b => e ∈ alGet b x) _
    (fun b grp hb => mem_alGet_addEdge_of_mem _ _ _ _ hb) _ b hb

theorem mem_alGet_roleStage (identities : List UnifiedIdentity)
    {adj : List (String × List AdjEntry)} {x : String} {e : AdjEntry}
    (h : e ∈ alGet adj x) : e ∈ alGet (roleStage identities adj) x := by
  unfold roleStage
  refine foldl_preserves (fun b => e ∈ alGet b x) _ (fun b i hb => ?_)
    identities adj h
  refine foldl_preserves (fun b => e ∈ alGet b x) _ (fun b role hb => ?_)
    i.roles b hb
  by_cases hw : getRoleWeight role ≥ Rat.divInt 7 10
  · simpa [hw] using mem_alGet_addEdge_of_mem i.id ("vrole:" ++ role)
      "has_role" _ hb
  · simpa [hw] using hb

theorem groupStage_adds (identities : List UnifiedIdentity)
    (i : UnifiedIdentity) (grp : String) (hi : i ∈ identities)
    (hg : grp ∈ i.groupMembership) (adj : List (String × List AdjEntry)) :
    (⟨"vgroup:" ++ grp, "member_of", Rat.divInt 1 2⟩ : AdjEntry) ∈
      alGet (groupStage identities adj) i.id ∧
    (⟨i.id, "member_of", Rat.divInt 1 2⟩ : AdjEntry) ∈
      alGet (groupStage identities adj) ("vgroup:" ++ grp) := by
  unfold groupStage
  constructor
  · refine alGet_foldl_of_elem _ i.id _
      (fun b j hb => foldl_preserves (fun b => _ ∈ alGet b i.id) _
        (fun b grp2 hb => mem_alGet_addEdge_of_mem _ _ _ _ hb)
        j.groupMembership b hb)
      i identities hi (fun b => ?_) adj
    refine alGet_foldl_of_elem _ i.id _
      (fun b grp2 hb => mem_alGet_addEdge_of_mem _ _ _ _ hb)
      grp i.groupMembership hg (fun b2 => ?_) b
    exact addEdge_mem_fwd b2 i.id ("vgroup:" ++ grp) "member_of" (Rat.divInt 1 2)
  · refine alGet_foldl_of_elem _ ("vgroup:" ++ grp) _
      (fun b j hb => foldl_preserves (fun b => _ ∈ alGet b ("vgroup:" ++ grp)) _
        (fun b grp2 hb => mem_alGet_addEdge_of_mem _ _ _ _ hb)
        j.groupMembership b hb)
      i identities hi (fun b => ?_) adj
    refine alGet_foldl_of_elem _ ("vgroup:" ++ grp) _
      (fun b grp2 hb => mem_alGet_addEdge_of_mem _ _ _ _ hb)
      grp i.groupMembership hg (fun b2 => ?_) b
    exact addEdge_mem_bwd b2 i.id ("vgroup:" ++ grp) "member_of" (Rat.divInt 1 2)

theorem mem_keys_buildNodes (identities : List UnifiedIdentity)
    (i : UnifiedIdentity) (hi : i ∈ identities) :
    i.id ∈ (buildNodes identities).map Prod.fst := by
  unfold buildNodes
  suffices h : ∀ (l : List UnifiedIdentity) (m : List (String × UnifiedIdentity)),
      i ∈ l → i.id ∈ ((l.foldl (fun m j => alSet m j.id j) m).map Prod.fst) by
    exact h identities [] hi
  intro l
  induction l with
  | nil => intro m hm; cases hm
  | cons j t ih =>
    intro m hm
    rw [List.foldl_cons]
    rcases List.mem_cons.mp hm with hij | hit
    · subst hij
      refine foldl_preserves (fun m => i.id ∈ m.map Prod.fst) _
        (fun m a hm => (mem_keys_alSet m a.id i.id a).mpr (Or.inr hm)) t _ ?_
      exact (mem_keys_alSet m i.id i.id i).mpr (Or.inl rfl)
    · exact ih (alSet m j.id j) hit

theorem buildNodes_isSome (identities : List UnifiedIdentity)
    (i : UnifiedIdentity) (hi : i ∈ identities) :
    (alFind (buildNodes identities) i.id).isSome := by
  obtain ⟨p, hp, hpx⟩ := List.mem_map.mp (mem_keys_buildNodes identities i hi)
  obtain ⟨p1, p2⟩ := p
  simp only at hpx
  exact alFind_isSome_of_mem (hpx ▸ hp)

theorem charsStart_self_append : ∀ (p r : List Char), charsStart p (p ++ r) = true := by
  intro p
  induction p with
  | nil => intro r; rfl
  | cons c t ih => intro r; simp [charsStart, ih]

theorem isVirtual_vgroup (s : String) : isVirtual ("vgroup:" ++ s) = true := by
  have h : strStarts ("vgroup:" ++ s) "vgroup:" = true := by
    unfold strStarts
    rw [String.data_append]
    exact charsStart_self_append _ _
  simp [isVirtual, h]

/-- C4 counterexample: in `cexGraph4` (where `a` shares an email with `c`,
`c` is linked to `b`, and `a` and `b` share only the group `g`), the BFS with
`maxDepth = 2` first discovers `b` through the real-edge chain `a → c → b`,
so `b` is reported at depth 2, not depth 1 as the claim requires for every
`maxDepth ≥ 1`. -/
theorem c4_group_hop_depth_counterexample :
    (∃ e ∈ getConnectedIdentities cexGraph4 "a" 2, e.id = "b" ∧ e.depth = 2) ∧
    ¬ (∃ e ∈ getConnectedIdentities cexGraph4 "a" 2, e.id = "b" ∧ e.depth = 1) := by
  constructor <;> decide

/-- C4 (amended): two identities sharing a group are reported at depth 1 of
each other when `maxDepth = 1` (the hop through the virtual group node does
not increment depth); for `maxDepth ≥ 2` the reported depth can exceed 1 when
a chain of real edges discovers the peer first; and every reported entry is
an identity node (virtual `vgroup:`/`vrole:` nodes never appear in the result
list). -/
theorem c4_group_hop_depth_one (identities : List UnifiedIdentity)
    (A B : UnifiedIdentity) (gname : String)
    (hA : A ∈ identities) (hB : B ∈ identities) (hid : A.id ≠ B.id)
    (hgA : gname ∈ A.groupMembership) (hgB : gname ∈ B.groupMembership)
    (hAv : isVirtual A.id = false) (hBv : isVirtual B.id = false) :
    (∃ e ∈ getConnectedIdentities (mkIdentityGraph identities) A.id 1,
       e.id = B.id ∧ e.depth = 1) ∧
    (∀ (maxDepth : Nat),
       ∀ e ∈ getConnectedIdentities (mkIdentityGraph identities) A.id maxDepth,
       (alFind (mkIdentityGraph identities).nodes e.id).isSome) := by
  have hnodes : (mkIdentityGraph identities).nodes = buildNodes identities := rfl
  have hadjeq : (mkIdentityGraph identities).adjacency =
      roleStage identities (groupStage identities
        (linkedStage (buildNodes identities) identities
          (crossProviderStage (buildEmailToIds identities) []))) := rfl
  have hAnode : (alFind (mkIdentityGraph identities).nodes A.id).isSome := by
    rw [hnodes]
    exact buildNodes_isSome identities A hA
  have hBnodeS : (alFind (mkIdentityGraph identities).nodes B.id).isSome := by
    rw [hnodes]
    exact buildNodes_isSome identities B hB
  obtain ⟨nB, hnB⟩ := Option.isSome_iff_exists.mp hBnodeS
  constructor
  · set g := mkIdentityGraph identities with hg
    set vg := "vgroup:" ++ gname with hvg
    have hvgA : (⟨vg, "member_of", Rat.divInt 1 2⟩ : AdjEntry) ∈
        alGet g.adjacency A.id := by
      rw [hg, hadjeq]
      exact mem_alGet_roleStage identities
        ((groupStage_adds identities A gname hA hgA _).1)
    have hBvg : (⟨B.id, "member_of", Rat.divInt 1 2⟩ : AdjEntry) ∈
        alGet g.adjacency vg := by
      rw [hg, hadjeq]
      exact mem_alGet_roleStage identities
        ((groupStage_adds identities B gname hB hgB _).2)
    have hvgT : vg ∈ (alGet g.adjacency A.id).map AdjEntry.target :=
      List.mem_map.mpr ⟨⟨vg, "member_of", Rat.divInt 1 2⟩, hvgA, rfl⟩
    have hBadj : B.id ∈ (alGet g.adjacency vg).map AdjEntry.target :=
      List.mem_map.mpr ⟨⟨B.id, "member_of", Rat.divInt 1 2⟩, hBvg, rfl⟩
    have hvgvirt : isVirtual vg = true := isVirtual_vgroup gname
    have hvgA_ne : vg ≠ A.id := by
      intro hc
      rw [hc, hAv] at hvgvirt
      cases hvgvirt
    have hBA_ne : B.id ≠ A.id := fun hc => hid hc.symm
    unfold getConnectedIdentities
    rw [if_pos hAnode]
    have hfuel : bfsFuel g = (allTargets g.adjacency).length + 1 := rfl
    rw [hfuel, bfsLoop_cons]
    rw [if_pos (by omega : (0 : Nat) < 1)]
    rw [show (if (0 : Nat) > 0 then
        match alFind g.nodes A.id with
        | some node =>
          ([] : List ConnEntry) ++ [⟨A.id, node.email, displaySource node, 0,
            "origin", node.riskScore⟩]
        | none => ([] : List ConnEntry)
      else ([] : List ConnEntry)) = [] from by norm_num]
    obtain ⟨adds, h1, h2, h3n, h4⟩ :=
      bfsScan_spec 0 "origin" (alGet g.adjacency A.id) [] [A.id]
    have haddsU : ∀ x ∈ adds.map (fun e => e.1),
        x ∈ (allTargets g.adjacency).toFinset := by
      intro x hx
      obtain ⟨a, ha, hax⟩ := List.mem_map.mp hx
      exact List.mem_toFinset.mpr (mem_allTargets_of_mem_alGet _ _ _
        (hax ▸ (h4 a ha).1))
    have haddsF : ∀ x ∈ adds.map (fun e => e.1), x ∉ [A.id] := by
      intro x hx
      obtain ⟨a, ha, hax⟩ := List.mem_map.mp hx
      exact hax ▸ (h4 a ha).2.1
    have hcard := card_sdiff_append ((allTargets g.adjacency).toFinset)
      [A.id] (adds.map (fun e => e.1)) h3n haddsF haddsU
    have hmeas : bfsMeasure g
        ((alGet g.adjacency A.id).foldl (bfsScanStep 0 "origin") ([], [A.id])).1
        ((alGet g.adjacency A.id).foldl (bfsScanStep 0 "origin") ([], [A.id])).2
        ≤ (allTargets g.adjacency).length := by
      rw [h1, h2]
      unfold bfsMeasure
      rw [List.length_map] at hcard
      have hU1 : ((allTargets g.adjacency).toFinset \
          ([A.id] : List String).toFinset).card ≤
          (allTargets g.adjacency).toFinset.card :=
        Finset.card_le_card (Finset.sdiff_subset)
      have hU2 : (allTargets g.adjacency).toFinset.card ≤
          (allTargets g.adjacency).length := List.toFinset_card_le _
      simp only [List.nil_append, List.length_append]
      omega
    have hvgIn : vg ∈
        ((alGet g.adjacency A.id).foldl (bfsScanStep 0 "origin") ([], [A.id])).2 :=
      bfsScan_covers 0 "origin" _ [] [A.id] vg hvgT
    rw [h2] at hvgIn
    rcases List.mem_append.mp hvgIn with hc1 | hc2
    · exact absurd (List.mem_singleton.mp hc1) hvgA_ne
    · obtain ⟨a, ha, hax⟩ := List.mem_map.mp hc2
      have h4a := h4 a ha
      have ha21 : a.2.1 = 0 := by
        rw [h4a.2.2, hax, hvgvirt]
        simp
      have haV : a = (vg, 0, a.2.2) := by
        rw [← hax, ← ha21]
      have hvgQ : (vg, 0, a.2.2) ∈
          ((alGet g.adjacency A.id).foldl (bfsScanStep 0 "origin")
            ([], [A.id])).1 := by
        rw [h1]
        exact List.mem_append_right _ (haV ▸ ha)
      by_cases hBadd : B.id ∈ adds.map (fun e => e.1)
      · obtain ⟨b, hb, hbx⟩ := List.mem_map.mp hBadd
        have h4b := h4 b hb
        have hb21 : b.2.1 = 1 := by
          rw [h4b.2.2, hbx, hBv]
          simp
        have hbB : b = (B.id, 1, b.2.2) := by
          rw [← hbx, ← hb21]
        refine bfs_reaches g B.id vg nB hBv hnB hBadj _ _ _ _ hmeas
          (Or.inr (Or.inl ⟨b.2.2, ?_⟩))
        rw [h1]
        exact List.mem_append_right _ (hbB ▸ hb)
      · refine bfs_reaches g B.id vg nB hBv hnB hBadj _ _ _ _ hmeas
          (Or.inl ⟨a.2.2, hvgQ, ?_⟩)
        rw [h2]
        intro hc
        rcases List.mem_append.mp hc with hc1 | hc2
        · exact hBA_ne (List.mem_singleton.mp hc1)
        · exact hBadd hc2
  · intro maxDepth e he
    unfold getConnectedIdentities at he
    rw [if_pos hAnode] at he
    exact bfsLoop_result_nodes (mkIdentityGraph identities) maxDepth _ _ _ _
      (fun e he => absurd he (List.not_mem_nil e)) e he

/-- C4 witness: two identities sharing only the group `devs`, with
`maxDepth = 1`. -/
theorem c4_group_hop_depth_one_witness :
    (wit4A ∈ [wit4A, wit4B] ∧ wit4B ∈ [wit4A, wit4B] ∧ wit4A.id ≠ wit4B.id ∧
     "devs" ∈ wit4A.groupMembership ∧ "devs" ∈ wit4B.groupMembership ∧
     isVirtual wit4A.id = false ∧ isVirtual wit4B.id = false) ∧
    ((∃ e ∈ getConnectedIdentities (mkIdentityGraph [wit4A, wit4B]) wit4A.id 1,
        e.id = wit4B.id ∧ e.depth = 1) ∧
     (∀ (maxDepth : Nat),
        ∀ e ∈ getConnectedIdentities (mkIdentityGraph [wit4A, wit4B]) wit4A.id
          maxDepth,
        (alFind (mkIdentityGraph [wit4A, wit4B]).nodes e.id).isSome)) :=
  ⟨by decide,
   c4_group_hop_depth_one [wit4A, wit4B] wit4A wit4B "devs" (by decide)
     (by decide) (by decide) (by decide) (by decide) (by decide) (by decide)⟩

/-! ## C9 -/

/-- C9: `find_admin_takeover_paths(id)` returns `[]` whenever the identity at
`id` has a role containing the substring "admin" (case-insensitively),
whatever else is reachable. -/
theorem c9_admin_start_returns_empty (g : IdentityGraph) (identityId : String)
    (n : UnifiedIdentity) (hfind : alFind g.nodes identityId = some n)
    (hadmin : n.roles.any adminRole = true) :
    findAdminTakeoverPaths g identityId = [] := by
  have hmem : (identityId, n) ∈ g.nodes := alFind_mem hfind
  have hin : identityId ∈ adminIds g := by
    simp only [adminIds, List.mem_map, List.mem_filter]
    exact ⟨(identityId, n), ⟨hmem, hadmin⟩, rfl⟩
  simp [findAdminTakeoverPaths, hfind, hin]

/-- C9 witness: the admin identity `"u1"` of the witness graph. -/
theorem c9_admin_start_returns_empty_witness :
    alFind witGraph.nodes "u1" =
      some { id := "u1", email := "w@x", source := .aws, roles := ["admin"] } ∧
    (({ id := "u1", email := "w@x", source := .aws, roles := ["admin"] }
        : UnifiedIdentity).roles.any adminRole = true) ∧
    findAdminTakeoverPaths witGraph "u1" = [] :=
  ⟨by decide, by decide,
   c9_admin_start_returns_empty witGraph "u1"
     { id := "u1", email := "w@x", source := .aws, roles := ["admin"] }
     (by decide) (by decide)⟩

end Portal
